import Mathlib

/-!
Verification development for the RecipeHolder repository.

This file gives a shallow embedding, in Lean 4, of the parts of the
RecipeHolder source that the specification talks about:

- `src/app/utils.py` : `sanitize_filename`, `parse_time_string`;
- `src/app/scraper.py` : the tag-normalization loop of
  `RecipeScraper._extract_tags`;
- `src/app/storage.py` : `RecipeStorage` (save / load / delete / exists /
  list / filepath), the markdown serialization `_create_markdown`;
- `src/app/search.py` : `RecipeSearchService.add_recipe_to_index` and
  `RecipeSearchService.rebuild_index` together with the tag table
  (`_get_or_create_tags`) and the listing `get_all_recipes`;
- `src/app/models.py` : the uniqueness constraints of the index schema
  (`slug`, `source_url` and `filepath` of the recipes table and `name` of
  the tags table are each declared unique), which we embed as the
  commit-time admissibility check of the database layer; the sessions of
  `src/app/database.py` run with `autoflush=False`, so a query inside an
  uncommitted session sees only committed rows, which the tag-lookup
  embedding reflects.

Conventions of the embedding:

- Python dictionaries whose keys may be absent become structures with
  `Option` fields; Python truthiness tests (`if x:`) on an optional field
  test both presence and non-emptiness / non-zeroness, and are embedded
  exactly as such.
- Character classes of Python regular expressions are embedded at ASCII
  granularity (the repository only ever produces ASCII identifiers).
- The SQLAlchemy session is embedded by explicit state passing: an
  operation receives an `IndexState` and returns the state left behind
  together with an `Except` result.  `db.commit` either publishes the
  pending list of rows (when the schema constraints hold) or fails, in
  which case `db.rollback` leaves the state that existed before the call,
  exactly as the `try/except` blocks of `search.py` do.
- Wall-clock reads (`datetime.utcnow`) become explicit parameters: a
  structured `UtcTime` where the code formats a timestamp and an abstract
  `Nat` tick where the code only stores a creation/update instant.
-/

set_option linter.unusedVariables false

set_option maxRecDepth 8192

namespace RecipeHolder

/-! ## Embedding of src/app/utils.py -/

/-- Python whitespace class for the `str.strip` default and the regex
class backslash-s, at ASCII granularity: space, tab, newline, carriage
return, vertical tab, form feed. -/
def pyIsSpace (c : Char) : Bool :=
  c = ' ' || c = '\t' || c = '\n' || c = '\r' || c = '\x0b' || c = '\x0c'

/-- Python regex word class backslash-w at ASCII granularity:
alphanumeric or underscore. -/
def isWordChar (c : Char) : Bool :=
  c.isAlphanum || c = '_'

/-- Embedding of `str.strip()` (both-ends trim of whitespace) on a
character list. -/
def pyStrip (cs : List Char) : List Char :=
  ((cs.dropWhile pyIsSpace).reverse.dropWhile pyIsSpace).reverse

/-- String-level version of `str.strip()`. -/
def pyStripStr (s : String) : String :=
  ⟨pyStrip s.toList⟩

/-- Embedding of `x.split(sep)[-1]`: the characters after the last
occurrence of the separator. -/
def lastSplit (sep : Char) (cs : List Char) : List Char :=
  cs.foldl (fun acc c => if c = sep then [] else acc ++ [c]) []

/-- Embedding of `re.sub(r"-+", "-", x)`: every maximal run of hyphens
is collapsed to a single hyphen (a hyphen directly followed by another
hyphen is dropped, so each run keeps exactly one hyphen). -/
def collapseHyphens : List Char → List Char
  | [] => []
  | [c] => [c]
  | c :: d :: cs =>
    if c = '-' ∧ d = '-' then collapseHyphens (d :: cs)
    else c :: collapseHyphens (d :: cs)

/-- Embedding of `x.strip("-.")`: trim leading and trailing hyphens and
dots. -/
def stripDashDot (cs : List Char) : List Char :=
  ((cs.dropWhile (fun c => c = '-' || c = '.')).reverse.dropWhile
    (fun c => c = '-' || c = '.')).reverse

/-- Embedding of `utils.sanitize_filename` (src/app/utils.py lines
89-114): drop directory components, keep only word characters,
whitespace, hyphen and dot, turn spaces into hyphens, collapse hyphen
runs, and trim leading/trailing hyphens and dots. -/
def sanitize_filename (s : String) : String :=
  let cs := lastSplit '\\' (lastSplit '/' s.toList)
  let cs := cs.filter (fun c => isWordChar c || pyIsSpace c || c = '-' || c = '.')
  let cs := cs.map (fun c => if c = ' ' then '-' else c)
  let cs := collapseHyphens cs
  ⟨stripDashDot cs⟩

/-- Numeric value of a run of decimal digit characters, as `int` would
read it. -/
def digitsToNat (cs : List Char) : Nat :=
  cs.foldl (fun n c => n * 10 + (c.toNat - '0'.toNat)) 0

/-- Whether one of the literal unit alternatives occurs at the head of
the remaining input.  The optional trailing "s" of the regex does not
constrain the match, so it does not appear here. -/
def matchUnit (units : List (List Char)) (cs : List Char) : Bool :=
  units.any (fun u => u.isPrefixOf cs)

/-- Leftmost search for the regex pattern digits, optional whitespace,
then one of the unit literals (as in `re.search` over the patterns of
`utils.parse_time_string`).  Returns the numeric value of the digit
group of the leftmost match. -/
def searchNumUnit (units : List (List Char)) : List Char → Option Nat
  | [] => none
  | c :: cs =>
    if c.isDigit then
      let run := (c :: cs).takeWhile Char.isDigit
      let rest := ((c :: cs).dropWhile Char.isDigit).dropWhile pyIsSpace
      if matchUnit units rest then some (digitsToNat run)
      else searchNumUnit units cs
    else searchNumUnit units cs

/-- Unit literals of the hour pattern of `parse_time_string`. -/
def hourUnits : List (List Char) :=
  ["hour".toList, "hr".toList, "h".toList]

/-- Unit literals of the minute pattern of `parse_time_string`. -/
def minuteUnits : List (List Char) :=
  ["minute".toList, "min".toList, "m".toList]

/-- Embedding of `utils.parse_time_string` (src/app/utils.py lines
163-194): falsy input gives `none`; otherwise the input is lowercased
and stripped, the hour and minute patterns are searched, the hits are
summed into minutes, and a non-positive total gives `none`. -/
def parse_time_string (s : String) : Option Nat :=
  if s = "" then none
  else
    let t := pyStrip (s.toList.map Char.toLower)
    let hours := searchNumUnit hourUnits t
    let minutes := searchNumUnit minuteUnits t
    let total := 60 * hours.getD 0 + minutes.getD 0
    if total > 0 then some total else none

/-! ## Embedding of the tag-normalization loop of
`RecipeScraper._extract_tags` (src/app/scraper.py lines 236-248). -/

/-- Cleaning of a single raw tag: strip, lowercase, keep only
alphanumerics, hyphen, underscore and space, then turn spaces into
hyphens. -/
def cleanTag (s : String) : String :=
  let t := (pyStrip s.toList).map Char.toLower
  let t := t.filter (fun c => c.isAlphanum || c = '-' || c = '_' || c = ' ')
  ⟨t.map (fun c => if c = ' ' then '-' else c)⟩

/-- Loop body of the normalization loop: the cleaned tag is appended
when it is non-empty, at most 50 characters long and not already
collected. -/
def tagFold (acc : List String) (tag : String) : List String :=
  if cleanTag tag ≠ "" ∧ (cleanTag tag).length ≤ 50 ∧ cleanTag tag ∉ acc
  then acc ++ [cleanTag tag] else acc

/-- Embedding of the normalization loop of
`RecipeScraper._extract_tags`: clean each tag, keep it when it is
non-empty, at most 50 characters long and not already collected, and cap
the result at 20 tags. -/
def normalize_tags (tags : List String) : List String :=
  (tags.foldl tagFold []).take 20

/-! ## Embedding of src/app/storage.py -/

/-- A reading of the wall clock (`datetime.utcnow()`), used by
`add_recipe_to_index` to format a timestamp suffix. -/
structure UtcTime where
  year : Nat
  month : Nat
  day : Nat
  hour : Nat
  minute : Nat
  second : Nat
deriving DecidableEq, Repr

/-- Decimal digit character for a digit value. -/
def digitChar (d : Nat) : Char :=
  Char.ofNat (48 + d)

/-- The low `k` decimal digits of `n`, zero-padded to width `k`, as
`strftime` renders a field.  (For the field ranges `datetime.utcnow`
can produce -- four-digit years, two-digit months and so on -- this is
exactly the `strftime` output.) -/
def padDigits : Nat → Nat → List Char
  | 0, _ => []
  | k + 1, n => padDigits k (n / 10) ++ [digitChar (n % 10)]

/-- Embedding of `datetime.utcnow().strftime("%Y%m%d%H%M%S")`
(src/app/search.py line 72). -/
def fmtTimestamp (t : UtcTime) : String :=
  ⟨padDigits 4 t.year ++ padDigits 2 t.month ++ padDigits 2 t.day ++
    padDigits 2 t.hour ++ padDigits 2 t.minute ++ padDigits 2 t.second⟩

/-- The YAML frontmatter mapping of a stored document, with one field
per key the repository reads or writes.  A `none` field is an absent
key. -/
structure FileMeta where
  title : Option String := none
  source_url : Option String := none
  created_at : Option String := none
  updated_at : Option String := none
  description : Option String := none
  prep_time : Option Nat := none
  cook_time : Option Nat := none
  total_time : Option Nat := none
  servings : Option String := none
  tags : Option (List String) := none
  author : Option String := none
deriving DecidableEq, Repr

/-- A markdown document file: frontmatter, body, and its on-disk byte
count (the `stat().st_size` that `load_recipe` compares against the
size ceiling).  For a file written by `save_recipe` the byte count is
that of the full rendered document, frontmatter header included (see
`renderDoc` and `mkFile`). -/
structure MDFile where
  meta : FileMeta
  content : String
  size : Nat
deriving DecidableEq, Repr

/-- The recipes directory: one entry per file, keyed by the file name
stem (the part before `.md`), kept in directory enumeration order. -/
abbrev DocStore : Type := List (String × MDFile)

/-- Storage configuration (`settings.recipes_path` and
`settings.max_recipe_size` from src/app/config.py). -/
structure StorageConfig where
  recipesPath : String
  maxRecipeSize : Nat
deriving DecidableEq, Repr

/-- Error taxonomy of `RecipeStorage` (`StorageError` messages of
src/app/storage.py, split by cause). -/
inductive StorageErr where
  | invalidInput
  | notFound
  | tooLarge
deriving DecidableEq, Repr

/-- File name stem used for a slug: `sanitize_filename(slug)`
(the `.md` extension is appended around it everywhere). -/
def storedName (slug : String) : String :=
  sanitize_filename slug

/-- Embedding of `RecipeStorage.get_recipe_filepath` (src/app/storage.py
lines 192-203). -/
def get_recipe_filepath (cfg : StorageConfig) (slug : String) : String :=
  cfg.recipesPath ++ "/" ++ storedName slug ++ ".md"

/-- Input dictionary of `save_recipe` / `_create_markdown`: the
`recipe_data` dict, with `Option` for keys that may be absent. -/
structure SaveInput where
  slug : String
  title : Option String := none
  source_url : Option String := none
  description : Option String := none
  ingredients : List String := []
  instructions : Option String := none
  notes : Option String := none
  prep_time : Option Nat := none
  cook_time : Option Nat := none
  total_time : Option Nat := none
  servings : Option String := none
  tags : Option (List String) := none
  author : Option String := none
  scraped_at : Option String := none
deriving DecidableEq, Repr

/-- Python truthiness filter on an optional integer: the key is kept
only when present and non-zero. -/
def truthyNat (o : Option Nat) : Option Nat :=
  match o with
  | some n => if n = 0 then none else some n
  | none => none

/-- Python truthiness filter on an optional string: the key is kept only
when present and non-empty. -/
def truthyStr (o : Option String) : Option String :=
  match o with
  | some s => if s = "" then none else some s
  | none => none

/-- Python truthiness filter on an optional list: the key is kept only
when present and non-empty. -/
def truthyList (o : Option (List String)) : Option (List String) :=
  match o with
  | some l => if l = [] then none else some l
  | none => none

/-- The frontmatter mapping `_create_markdown` writes (src/app/storage.py
lines 215-235): title, source_url and the two timestamps always, the
optional keys only when truthy. -/
def mkMeta (rd : SaveInput) (now : String) : FileMeta :=
  { title := some (rd.title.getD "Untitled Recipe")
    source_url := some (rd.source_url.getD "")
    created_at := some (match truthyStr rd.scraped_at with
      | some s => s
      | none => now)
    updated_at := some now
    description := none
    prep_time := truthyNat rd.prep_time
    cook_time := truthyNat rd.cook_time
    total_time := truthyNat rd.total_time
    servings := truthyStr rd.servings
    tags := truthyList rd.tags
    author := truthyStr rd.author }

/-- Embedding of `str.split(sep)` for a single separator character, on
the character list. -/
def splitOnChar (sep : Char) : List Char → List (List Char)
  | [] => [[]]
  | c :: cs =>
    if c = sep then [] :: splitOnChar sep cs
    else
      match splitOnChar sep cs with
      | [] => [[c]]
      | g :: gs => (c :: g) :: gs

/-- First character of a string is a decimal digit (`line[0].isdigit()`
on a non-empty line). -/
def headIsDigit (s : String) : Bool :=
  match s.toList with
  | c :: _ => c.isDigit
  | [] => false

/-- The rendered instruction lines (src/app/storage.py lines 261-275):
multi-line text is split, blank lines are skipped, and a line is
numbered with its original position unless it already starts with a
digit; single-line text becomes one numbered step. -/
def instrLines (instr : String) : List String :=
  if instr.toList.contains '\n' then
    ((splitOnChar '\n' instr.toList).map (fun cs => (⟨cs⟩ : String))).enum.filterMap (fun p =>
      let line := pyStripStr p.2
      if line = "" then none
      else if headIsDigit line then some line
      else some (toString (p.1 + 1) ++ ". " ++ line))
  else ["1. " ++ instr]

/-- Embedding of `"\n".join(parts)`. -/
def joinLines : List String → String
  | [] => ""
  | [p] => p
  | p :: ps => p ++ "\n" ++ joinLines ps

/-- The rendered document body of `_create_markdown` (src/app/storage.py
lines 237-285): title heading, optional description paragraph,
bulleted ingredients, numbered instructions, optional notes, joined
with newlines. -/
def mkContent (rd : SaveInput) : String :=
  let parts := ["# " ++ rd.title.getD "Untitled Recipe" ++ "\n"]
  let desc := pyStripStr (rd.description.getD "")
  let parts := parts ++ (if desc = "" then [] else [desc ++ "\n"])
  let parts := parts ++
    (if rd.ingredients = [] then []
     else "## Ingredients\n" :: rd.ingredients.map (fun i => "- " ++ i) ++ [""])
  let instr := pyStripStr (rd.instructions.getD "")
  let parts := parts ++
    (if instr = "" then []
     else "## Instructions\n" :: instrLines instr ++ [""])
  let notes := pyStripStr (rd.notes.getD "")
  let parts := parts ++ (if notes = "" then [] else ["## Notes\n", notes])
  joinLines parts

/-- An ASCII-printable character (the granularity at which the YAML
scalar rendering below is modeled). -/
def yamlPrintable (c : Char) : Bool :=
  32 ≤ c.toNat && c.toNat ≤ 126

/-- The plain scalars PyYAML's resolver reads as booleans, nulls or the
value tag, which the emitter therefore quotes when they stand for
strings. -/
def yamlResolverWords : List String :=
  ["true", "True", "TRUE", "false", "False", "FALSE",
   "yes", "Yes", "YES", "no", "No", "NO",
   "on", "On", "ON", "off", "Off", "OFF",
   "null", "Null", "NULL", "~", "="]

/-- Whether a two-character sequence occurs in a character list. -/
def containsSeq2 (a b : Char) : List Char → Bool
  | [] => false
  | [_] => false
  | c :: d :: cs => (c == a && d == b) || containsSeq2 a b (d :: cs)

/-- A scalar over the numeric/timestamp alphabet with a sign-or-digit
lead: the shapes PyYAML's resolver reads as integers, floats,
sexagesimals or timestamps, which the emitter quotes when they stand
for strings (modeled at the granularity of this alphabet). -/
def yamlNumericLike (s : String) : Bool :=
  match s.toList with
  | [] => false
  | c :: _ =>
    (c.isDigit || c == '+' || c == '-' || c == '.') &&
    s.toList.any Char.isDigit &&
    s.toList.all (fun d => d.isDigit || d == '_' || d == '.' || d == '+' ||
      d == '-' || d == ':' || d == 'e' || d == 'E' || d == 'T' || d == 't' ||
      d == 'Z' || d == ' ')

/-- Whether PyYAML's emitter writes a scalar in the plain (unquoted)
style, modeled for single-line printable-ASCII scalars: the first
character must be alphanumeric (not an indicator), the scalar must not
end in a space or a colon, must contain no plain-breaking sequence
(colon-space or space-hash) and must not resolve as a non-string. -/
def yamlPlainOk (s : String) : Bool :=
  match s.toList with
  | [] => false
  | c :: _ =>
    (c.isAlpha || c.isDigit) &&
    !(s.toList.getLast? == some ' ') && !(s.toList.getLast? == some ':') &&
    s.toList.all yamlPrintable &&
    !(containsSeq2 ':' ' ' s.toList) && !(containsSeq2 ' ' '#' s.toList) &&
    !(yamlResolverWords.contains s) &&
    !(yamlNumericLike s)

/-- Single-quote escaping: a quote inside a single-quoted scalar is
doubled. -/
def yamlEscapeQuotes : List Char → List Char
  | [] => []
  | c :: cs =>
    if c = '\'' then '\'' :: '\'' :: yamlEscapeQuotes cs
    else c :: yamlEscapeQuotes cs

/-- A string scalar as PyYAML renders it (modeled for single-line
printable-ASCII scalars, the repository's frontmatter values): plain
when allowed, otherwise single-quoted with internal quotes doubled.
Line folding past the emitter's 80-column width and the double-quoted
escape style for non-printable characters are beyond the granularity of
the embedding. -/
def yamlScalar (s : String) : String :=
  if yamlPlainOk s then s
  else "'" ++ (⟨yamlEscapeQuotes s.toList⟩ : String) ++ "'"

/-- The lines of `yaml.dump(metadata, default_flow_style=False)` for a
frontmatter mapping: one `key: value` line per present key in sorted
key order, with a list value rendered as a block sequence. -/
def yamlMetaLines (m : FileMeta) : List String :=
  (match m.author with | some a => ["author: " ++ yamlScalar a] | none => []) ++
  (match m.cook_time with | some n => ["cook_time: " ++ toString n] | none => []) ++
  (match m.created_at with | some t => ["created_at: " ++ yamlScalar t] | none => []) ++
  (match m.description with | some d => ["description: " ++ yamlScalar d] | none => []) ++
  (match m.prep_time with | some n => ["prep_time: " ++ toString n] | none => []) ++
  (match m.servings with | some s => ["servings: " ++ yamlScalar s] | none => []) ++
  (match m.tags with
   | some [] => ["tags: []"]
   | some ts => "tags:" :: ts.map (fun t => "- " ++ yamlScalar t)
   | none => []) ++
  (match m.title with | some t => ["title: " ++ yamlScalar t] | none => []) ++
  (match m.total_time with | some n => ["total_time: " ++ toString n] | none => []) ++
  (match m.updated_at with | some t => ["updated_at: " ++ yamlScalar t] | none => [])

/-- The stripped YAML block of a document's frontmatter. -/
def renderMeta (m : FileMeta) : String :=
  joinLines (yamlMetaLines m)

/-- The full on-disk text `frontmatter.dumps` produces
(src/app/storage.py line 289): the `---` delimiters around the YAML
block, a blank separator line, then the body, with the whole template
stripped of surrounding whitespace as the library's final `.strip()`
does. -/
def renderDoc (m : FileMeta) (content : String) : String :=
  pyStripStr ("---\n" ++ renderMeta m ++ "\n---\n\n" ++ content)

/-- The file `save_recipe` writes for a given input and clock reading;
`size` is the byte count of the full rendered document -- frontmatter
header included -- at the embedding's ASCII granularity, the quantity
`load_recipe` checks against the size ceiling. -/
def mkFile (rd : SaveInput) (now : String) : MDFile :=
  { meta := mkMeta rd now
    content := mkContent rd
    size := (renderDoc (mkMeta rd now) (mkContent rd)).length }

/-- Write a file under a name, overwriting a file already stored under
that name (last-write-wins, as the atomic replace of `save_recipe`
does). -/
def storePut (store : DocStore) (key : String) (f : MDFile) : DocStore :=
  if store.any (fun e => e.1 == key) then
    store.map (fun e => if e.1 == key then (key, f) else e)
  else store ++ [(key, f)]

/-- Embedding of `RecipeStorage.save_recipe` (src/app/storage.py lines
39-83): an empty slug is rejected, otherwise the rendered file is
written under the sanitized name and the final path is returned. -/
def save_recipe (cfg : StorageConfig) (now : String) (store : DocStore)
    (rd : SaveInput) : DocStore × Except StorageErr String :=
  if rd.slug = "" then (store, .error .invalidInput)
  else
    (storePut store (storedName rd.slug) (mkFile rd now),
      .ok (get_recipe_filepath cfg rd.slug))

/-- The parsed result of `load_recipe`: the requested slug, the resolved
path, the frontmatter metadata and the raw body text. -/
structure LoadedDoc where
  slug : String
  filepath : String
  meta : FileMeta
  content : String
deriving DecidableEq, Repr

/-- Embedding of `RecipeStorage.load_recipe` (src/app/storage.py lines
85-131): resolve the sanitized name, fail when absent, fail when the
file exceeds the configured ceiling, otherwise return metadata plus raw
body. -/
def load_recipe (cfg : StorageConfig) (store : DocStore) (slug : String) :
    Except StorageErr LoadedDoc :=
  match store.find? (fun e => e.1 == storedName slug) with
  | none => .error .notFound
  | some e =>
    if e.2.size > cfg.maxRecipeSize then .error .tooLarge
    else .ok ⟨slug, get_recipe_filepath cfg slug, e.2.meta, e.2.content⟩

/-- Embedding of `RecipeStorage.delete_recipe` (src/app/storage.py lines
133-160): remove the file under the sanitized name, reporting whether
one existed. -/
def delete_recipe (store : DocStore) (slug : String) : DocStore × Bool :=
  if store.any (fun e => e.1 == storedName slug) then
    (store.filter (fun e => !(e.1 == storedName slug)), true)
  else (store, false)

/-- Embedding of `RecipeStorage.recipe_exists` (src/app/storage.py lines
162-174). -/
def recipe_exists (store : DocStore) (slug : String) : Bool :=
  store.any (fun e => e.1 == storedName slug)

/-- Embedding of `RecipeStorage.list_recipes` (src/app/storage.py lines
176-190): the stems of the stored files, in directory enumeration
order. -/
def list_recipes (store : DocStore) : List String :=
  store.map (fun e => e.1)

/-! ## Embedding of src/app/search.py together with the schema
constraints of src/app/models.py -/

/-- A row of the `recipes` table (src/app/models.py lines 26-67),
with the many-to-many tag relation flattened to the list of associated
tag names, and the two timestamps as abstract clock ticks. -/
structure Recipe where
  title : String
  slug : String
  filepath : String
  source_url : String
  description : String
  servings : String
  prep_time : Option Nat
  cook_time : Option Nat
  total_time : Option Nat
  tags : List String
  created_at : Nat
  updated_at : Nat
deriving DecidableEq, Repr

/-- The index database: the `recipes` rows and the `tags` table (as the
list of tag names, in creation order). -/
structure IndexState where
  recipes : List Recipe
  tagNames : List String
deriving DecidableEq, Repr

/-- Error taxonomy of `RecipeSearchService` (`SearchError` of
src/app/search.py, split by cause): `alreadyExists` is the duplicate-URL
rejection carrying the existing row's slug; `failure` is any other
wrapped exception (in particular a constraint violation surfaced by
`db.commit`). -/
inductive SearchErr where
  | alreadyExists (slug : String)
  | failure
deriving DecidableEq, Repr

instance instDecEqExcept {ε α : Type} [DecidableEq ε] [DecidableEq α] :
    DecidableEq (Except ε α)
  | .error e1, .error e2 =>
    match decEq e1 e2 with
    | isTrue h => isTrue (by rw [h])
    | isFalse h => isFalse (by intro hh; cases hh; exact h rfl)
  | .error _, .ok _ => isFalse (by intro h; cases h)
  | .ok _, .error _ => isFalse (by intro h; cases h)
  | .ok a1, .ok a2 =>
    match decEq a1 a2 with
    | isTrue h => isTrue (by rw [h])
    | isFalse h => isFalse (by intro hh; cases hh; exact h rfl)

/-- Embedding of `RecipeSearchService._get_or_create_tags`
(src/app/search.py lines 452-481) under the session's
`autoflush=False` (src/app/database.py line 33): lowercase and strip
each name, skip empties, and look the name up in the committed `tags`
table only -- the SELECT does not see a row added earlier in the same
uncommitted session, so every missed lookup creates a fresh pending
row, even under a name that is already pending.  The first component is
the list of tag names the caller's row gets associated with, collapsed
by object identity as the relationship flush de-duplicates repeated
objects (a committed row looked up twice is one object; two pending
rows never collapse, even under equal names); the second component is
the `tags` name column as the commit would publish it: the committed
names followed by every pending creation in order.  `tagStep` is one
iteration of the loop (`get_or_create_tags` folds it over the names). -/
def tagStep (table : List String) (acc : List String × List String)
    (nm : String) : List String × List String :=
  let n : String := ⟨pyStrip (nm.toList.map Char.toLower)⟩
  if n = "" then acc
  else if table.contains n then
    (if acc.1.contains n then acc.1 else acc.1 ++ [n], acc.2)
  else (acc.1 ++ [n], acc.2 ++ [n])

def get_or_create_tags (names : List String) (table : List String) :
    List String × List String :=
  let r := names.foldl (tagStep table) ([], [])
  (r.1, table ++ r.2)

/-- The names of the `Tag` rows one `_get_or_create_tags` call
schedules for insertion: the suffix the call appends to the committed
name column (the cleaned non-empty names the committed-table lookup
missed, with multiplicity). -/
def createdTags (names table : List String) : List String :=
  ((get_or_create_tags names table).2).drop table.length

/-- The cleaned tag names a call processes: each name lowercased and
stripped, empties skipped. -/
def cleanedTagNames (names : List String) : List String :=
  (names.map (fun nm => (⟨pyStrip (nm.toList.map Char.toLower)⟩ : String))).filter
    (fun n => !(n == ""))

/-- The uniqueness constraints the schema declares (src/app/models.py):
`slug`, `filepath` and `source_url` of the `recipes` table and `name`
of the `tags` table are each `unique=True`.  `db.commit` succeeds
exactly when the rows and the tag name column it is about to publish
satisfy them. -/
def commitAccepts (rs : List Recipe) (tagNames : List String) : Bool :=
  decide (rs.map Recipe.slug).Nodup &&
  decide (rs.map Recipe.source_url).Nodup &&
  decide (rs.map Recipe.filepath).Nodup &&
  decide tagNames.Nodup

/-- Well-formedness of a committed index state: the records satisfy the
uniqueness constraints the schema declares on the `recipes` table.
Every state reachable through the database layer satisfies this (and
has distinct tag names, which is stated separately where needed). -/
def WF (st : IndexState) : Prop :=
  (st.recipes.map Recipe.slug).Nodup ∧
  (st.recipes.map Recipe.source_url).Nodup ∧
  (st.recipes.map Recipe.filepath).Nodup

instance (st : IndexState) : Decidable (WF st) := by
  unfold WF
  infer_instance

/-- Input dictionary of `add_recipe_to_index`: the keys the code reads,
with `Option` for the ones accessed through `dict.get`. -/
structure AddInput where
  title : String
  slug : String
  source_url : String
  description : Option String := none
  servings : Option String := none
  prep_time : Option Nat := none
  cook_time : Option Nat := none
  total_time : Option Nat := none
  tags : Option (List String) := none
deriving DecidableEq, Repr

/-- Embedding of `RecipeSearchService.add_recipe_to_index`
(src/app/search.py lines 37-109).  A row with the same `source_url` is
rejected as a duplicate before anything is written; a slug collision
appends the formatted clock reading; the new row and its tag rows are
then committed, which fails (and rolls back) when it would violate a
uniqueness constraint -- of the recipe columns, or of the tag name
column when the autoflush-disabled session staged two pending tag rows
under one name. -/
def add_recipe_to_index (cfg : StorageConfig) (now : UtcTime) (tick : Nat)
    (st : IndexState) (rd : AddInput) :
    IndexState × Except SearchErr Recipe :=
  match st.recipes.find? (fun r => r.source_url == rd.source_url) with
  | some r => (st, .error (.alreadyExists r.slug))
  | none =>
    let slug :=
      if (st.recipes.find? (fun r => r.slug == rd.slug)).isSome then
        rd.slug ++ "-" ++ fmtTimestamp now
      else rd.slug
    let filepath := get_recipe_filepath cfg slug
    let tags := rd.tags.getD []
    let tr :=
      if tags = [] then ([], st.tagNames)
      else get_or_create_tags tags st.tagNames
    let row : Recipe :=
      { title := rd.title
        slug := slug
        filepath := filepath
        source_url := rd.source_url
        description := rd.description.getD ""
        servings := rd.servings.getD ""
        prep_time := rd.prep_time
        cook_time := rd.cook_time
        total_time := rd.total_time
        tags := tr.1
        created_at := tick
        updated_at := tick }
    let rows := st.recipes ++ [row]
    if commitAccepts rows tr.2 then (⟨rows, tr.2⟩, .ok row)
    else (st, .error .failure)

/-- Embedding of `RecipeSearchService.get_all_recipes` (src/app/search.py
lines 262-296): all rows ordered newest-first by creation instant, with
offset-based pagination. -/
def get_all_recipes (limit offset : Nat) (st : IndexState) : List Recipe :=
  (((st.recipes.insertionSort (fun a b => b.created_at ≤ a.created_at)).drop
    offset).take limit)

/-- Rebuild statistics (the `stats` dictionary of `rebuild_index`). -/
structure RebuildStats where
  total_files : Nat
  indexed : Nat
  updated : Nat
  errors : Nat
  orphaned : Nat
deriving DecidableEq, Repr

/-- Insertion into a Python dict: an existing key keeps its position and
takes the new value, a new key is appended. -/
def dictInsert (m : List (String × Recipe)) (k : String) (v : Recipe) :
    List (String × Recipe) :=
  if m.any (fun e => e.1 == k) then
    m.map (fun e => if e.1 == k then (k, v) else e)
  else m ++ [(k, v)]

/-- The working map `{r.slug: r for r in ...}` of `rebuild_index`
(src/app/search.py line 354). -/
def dictOfRecipes (rs : List Recipe) : List (String × Recipe) :=
  rs.foldl (fun m r => dictInsert m r.slug r) []

/-- The in-place update of an existing index row during rebuild
(src/app/search.py lines 365-377): overwrite title (keeping the old one
when the file has none), description, servings and the three times,
stamp `updated_at`, and replace the tag associations only when the
loaded document carries a non-empty tag list.  `table` is the committed
tag table the session's lookups see; the second component is the tag
name column as a commit of this call alone would publish it (`table`
plus this call's pending creations). -/
def updateExisting (r : Recipe) (d : LoadedDoc) (tick : Nat)
    (table : List String) : Recipe × List String :=
  let base : Recipe :=
    { r with
      title := d.meta.title.getD r.title
      description := d.meta.description.getD ""
      servings := d.meta.servings.getD ""
      prep_time := d.meta.prep_time
      cook_time := d.meta.cook_time
      total_time := d.meta.total_time
      updated_at := tick }
  let tags := d.meta.tags.getD []
  if tags = [] then (base, table)
  else
    let tr := get_or_create_tags tags table
    ({ base with tags := tr.1 }, tr.2)

/-- The fresh index row created during rebuild for a document whose slug
is not in the working map (src/app/search.py lines 382-401); `table` is
the committed tag table the session's lookups see, and the second
component is as in `updateExisting`. -/
def mkNewRecipe (slug : String) (d : LoadedDoc) (tick : Nat)
    (table : List String) : Recipe × List String :=
  let tags := d.meta.tags.getD []
  let tr :=
    if tags = [] then ([], table)
    else get_or_create_tags tags table
  ({ title := d.meta.title.getD "Untitled"
     slug := slug
     filepath := d.filepath
     source_url := d.meta.source_url.getD ""
     description := d.meta.description.getD ""
     servings := d.meta.servings.getD ""
     prep_time := d.meta.prep_time
     cook_time := d.meta.cook_time
     total_time := d.meta.total_time
     tags := tr.1
     created_at := tick
     updated_at := tick }, tr.2)

/-- Loop state of the per-file pass of `rebuild_index`: the pending
session rows, the tag name column the commit will publish (committed
names plus pending creations), the working map, and the three counters
the loop maintains. -/
structure RbAcc where
  pending : List Recipe
  table : List String
  working : List (String × Recipe)
  indexed : Nat
  updated : Nat
  errors : Nat
deriving DecidableEq, Repr

/-- The tag list of the document stored under an identifier (empty for
an absent key and for a document that fails to load, in which cases the
loop creates no tag row). -/
def docTagNames (cfg : StorageConfig) (store : DocStore) (s : String) :
    List String :=
  match load_recipe cfg store s with
  | .ok d => d.meta.tags.getD []
  | .error _ => []

/-- One iteration of the per-file loop of `rebuild_index`
(src/app/search.py lines 357-408): load the document (counting a
failure and moving on), then either update the matching working-map row
in place and mark it accounted for, or stage a fresh row.  `committed`
is the tag table as committed before the pass started -- with
`autoflush=False` every tag lookup of the pass sees exactly that table
-- and `acc.table` accumulates the name column the final commit will
publish: the committed names plus each iteration's pending creations. -/
def rbStep (cfg : StorageConfig) (store : DocStore) (tick : Nat)
    (committed : List String) (acc : RbAcc) (slug : String) : RbAcc :=
  match load_recipe cfg store slug with
  | .error _ => { acc with errors := acc.errors + 1 }
  | .ok d =>
    match acc.working.find? (fun e => e.1 == slug) with
    | some e =>
      let ut := updateExisting e.2 d tick committed
      { acc with
        pending := acc.pending.map (fun q => if q.slug == slug then ut.1 else q)
        table := acc.table ++ createdTags (d.meta.tags.getD []) committed
        working := acc.working.eraseP (fun e => e.1 == slug)
        updated := acc.updated + 1 }
    | none =>
      let nt := mkNewRecipe slug d tick committed
      { acc with
        pending := acc.pending ++ [nt.1]
        table := acc.table ++ createdTags (d.meta.tags.getD []) committed
        indexed := acc.indexed + 1 }

/-- Whether loading a given identifier from the store succeeds (the
document exists under its sanitized name and is within the size
ceiling). -/
def loadOk (cfg : StorageConfig) (store : DocStore) (slug : String) : Bool :=
  match load_recipe cfg store slug with
  | .ok _ => true
  | .error _ => false

/-- Initial loop state of `rebuild_index`: the session holds the
committed rows, and the working map is built from the (at most 10000)
rows `get_all_recipes` returns (src/app/search.py lines 344-354). -/
def rbAcc0 (st : IndexState) : RbAcc :=
  { pending := st.recipes
    table := st.tagNames
    working := dictOfRecipes (get_all_recipes 10000 0 st)
    indexed := 0
    updated := 0
    errors := 0 }

/-- Loop state after the per-file pass of `rebuild_index`; the pass
runs in one session, so every tag lookup sees the table committed
before the pass, `st.tagNames`. -/
def rbPass (cfg : StorageConfig) (store : DocStore) (tick : Nat)
    (st : IndexState) : RbAcc :=
  (list_recipes store).foldl (rbStep cfg store tick st.tagNames) (rbAcc0 st)

/-- Orphan removal (src/app/search.py lines 410-414): every row still in
the working map is deleted from the session. -/
def orphanErase (working : List (String × Recipe)) (pending : List Recipe) :
    List Recipe :=
  working.foldl (fun p e => p.eraseP (fun q => q.slug == e.1)) pending

/-- Embedding of `RecipeSearchService.rebuild_index` (src/app/search.py
lines 323-428).  The pass walks the stored identifiers, updating or
inserting rows per file and counting per-item load failures; rows left
in the working map afterwards are deleted as orphans; the whole pass is
then committed as a single unit.  `commitOk = false` injects an
unexpected failure at the commit point, and a commit that would violate
a schema constraint -- on the recipe columns or on the tag name column
-- fails as well; in both cases the session is rolled back and the
state from before the call is kept. -/
def rebuild_index (cfg : StorageConfig) (store : DocStore) (tick : Nat)
    (commitOk : Bool) (st : IndexState) :
    IndexState × Except SearchErr RebuildStats :=
  let acc1 := rbPass cfg store tick st
  let final := orphanErase acc1.working acc1.pending
  let stats : RebuildStats :=
    { total_files := (list_recipes store).length
      indexed := acc1.indexed
      updated := acc1.updated
      errors := acc1.errors
      orphaned := acc1.working.length }
  if commitOk && commitAccepts final acc1.table then
    (⟨final, acc1.table⟩, .ok stats)
  else (st, .error .failure)

/-! ## General helper lemmas -/

theorem mem_of_mem_dropWhile (p : α → Bool) :
    ∀ (l : List α) (a : α), a ∈ l.dropWhile p → a ∈ l := by
  intro l
  induction l with
  | nil => simp
  | cons x l ih =>
    intro a ha
    by_cases hx : p x
    · simp only [List.dropWhile_cons, hx] at ha
      exact List.mem_cons_of_mem _ (ih a ha)
    · simp only [List.dropWhile_cons, hx] at ha
      simpa using ha

theorem mem_of_mem_collapseHyphens :
    ∀ (l : List Char) (c : Char), c ∈ collapseHyphens l → c ∈ l
  | [], c => by simp [collapseHyphens]
  | [a], c => by simp [collapseHyphens]
  | a :: b :: tl, c => by
    intro hc
    by_cases h : a = '-' ∧ b = '-'
    · rw [collapseHyphens, if_pos h] at hc
      exact List.mem_cons_of_mem _ (mem_of_mem_collapseHyphens (b :: tl) c hc)
    · rw [collapseHyphens, if_neg h] at hc
      rcases List.mem_cons.1 hc with hc2 | hc2
      · exact hc2 ▸ List.mem_cons_self _ _
      · exact List.mem_cons_of_mem _ (mem_of_mem_collapseHyphens (b :: tl) c hc2)

theorem mem_of_mem_stripDashDot (l : List Char) (c : Char) :
    c ∈ stripDashDot l → c ∈ l := by
  intro hc
  unfold stripDashDot at hc
  rw [List.mem_reverse] at hc
  have hc2 := mem_of_mem_dropWhile _ _ _ hc
  rw [List.mem_reverse] at hc2
  exact mem_of_mem_dropWhile _ _ _ hc2

/-! ## Claim C7 : tag normalization -/

theorem nodup_tagFold_foldl :
    ∀ (l : List String) (acc : List String),
      acc.Nodup → (l.foldl tagFold acc).Nodup := by
  intro l
  induction l with
  | nil => intro acc h; simpa using h
  | cons a l ih =>
    intro acc h
    refine ih _ ?_
    unfold tagFold
    split
    case isTrue hc =>
      simp only [List.nodup_append, List.nodup_cons, List.nodup_nil]
      exact ⟨h, ⟨by simp, trivial⟩, by
        intro x hx hx2
        simp only [List.mem_singleton] at hx2
        exact hc.2.2 (hx2 ▸ hx)⟩
    case isFalse => exact h

theorem mem_tagFold_foldl :
    ∀ (l : List String) (acc : List String) (t : String),
      t ∈ l.foldl tagFold acc →
      t ∈ acc ∨ ((∃ raw ∈ l, t = cleanTag raw) ∧ ¬t = "" ∧ t.length ≤ 50) := by
  intro l
  induction l with
  | nil => intro acc t ht; exact Or.inl (by simpa using ht)
  | cons a l ih =>
    intro acc t ht
    rcases ih (tagFold acc a) t ht with h | h
    · unfold tagFold at h
      split at h
      case isTrue hc =>
        rcases List.mem_append.1 h with h2 | h2
        · exact Or.inl h2
        · simp only [List.mem_singleton] at h2
          exact Or.inr ⟨⟨a, List.mem_cons_self _ _, h2⟩, h2 ▸ hc.1, h2 ▸ hc.2.1⟩
      case isFalse => exact Or.inl h
    · exact Or.inr ⟨⟨h.1.choose, List.mem_cons_of_mem _ h.1.choose_spec.1,
        h.1.choose_spec.2⟩, h.2⟩

/-- C7: the tag normalizer emits at most 20 tags, with no duplicates
(first occurrence kept), every emitted tag is the cleaned form of some
input token (cleaned = stripped, lowercased, characters outside
alphanumeric/hyphen/underscore/space dropped, spaces turned into
hyphens) and is non-empty and at most 50 characters long; on the
specification's example the result is chicken, curry, indian-food. -/
theorem tag_normalization_claims :
    (∀ l : List String, (normalize_tags l).length ≤ 20) ∧
    (∀ l : List String, (normalize_tags l).Nodup) ∧
    (∀ l : List String, ∀ t ∈ normalize_tags l,
      (∃ raw ∈ l, t = cleanTag raw) ∧ ¬t = "" ∧ t.length ≤ 50) ∧
    normalize_tags ["Chicken", "CURRY", "indian food", "chicken"] =
      ["chicken", "curry", "indian-food"] := by
  refine ⟨?_, ?_, ?_, by decide⟩
  · intro l
    exact (List.length_take _ _).le.trans (by simp)
  · intro l
    exact (nodup_tagFold_foldl l [] (by simp)).sublist (List.take_sublist _ _)
  · intro l t ht
    have ht2 : t ∈ l.foldl tagFold [] :=
      (List.take_sublist _ _).mem ht
    rcases mem_tagFold_foldl l [] t ht2 with h | h
    · simp at h
    · exact h

/-- C7 witness: the theorem applied to the example list at the tag
chicken. -/
theorem tag_normalization_claims_witness :
    (∃ raw ∈ ["Chicken", "CURRY", "indian food", "chicken"],
      "chicken" = cleanTag raw) ∧ ¬"chicken" = "" ∧ "chicken".length ≤ 50 :=
  tag_normalization_claims.2.2.1 _ "chicken" (by decide)

/-! ## Claim C8 : duration parsing -/

/-- C8: duration parsing sums the hour and minute pattern hits into
total minutes; the empty string and any input whose total is zero give
`none` (never `some 0`); the specification's examples evaluate as
stated. -/
theorem parse_duration_claims :
    parse_time_string "" = none ∧
    parse_time_string "1 hour 30 minutes" = some 90 ∧
    parse_time_string "45 minutes" = some 45 ∧
    (∀ s : String,
      parse_time_string s = none ∨
      ∃ n, parse_time_string s = some n ∧ 0 < n ∧
        n = 60 * (searchNumUnit hourUnits
              (pyStrip (s.toList.map Char.toLower))).getD 0 +
            (searchNumUnit minuteUnits
              (pyStrip (s.toList.map Char.toLower))).getD 0) := by
  refine ⟨by decide, by decide, by decide, ?_⟩
  intro s
  by_cases h : s = ""
  · exact Or.inl (by simp [parse_time_string, h])
  · have heq : parse_time_string s =
        if 60 * (searchNumUnit hourUnits
              (pyStrip (s.toList.map Char.toLower))).getD 0 +
            (searchNumUnit minuteUnits
              (pyStrip (s.toList.map Char.toLower))).getD 0 > 0
        then some (60 * (searchNumUnit hourUnits
              (pyStrip (s.toList.map Char.toLower))).getD 0 +
            (searchNumUnit minuteUnits
              (pyStrip (s.toList.map Char.toLower))).getD 0)
        else none := by
      unfold parse_time_string
      rw [if_neg h]
    by_cases ht : 60 * (searchNumUnit hourUnits
          (pyStrip (s.toList.map Char.toLower))).getD 0 +
        (searchNumUnit minuteUnits
          (pyStrip (s.toList.map Char.toLower))).getD 0 > 0
    · exact Or.inr ⟨_, by rw [heq, if_pos ht], ht, rfl⟩
    · exact Or.inl (by rw [heq, if_neg ht])

/-! ## Claim C9 : identifier sanitization -/

theorem head?_collapseHyphens :
    ∀ (d : Char) (cs : List Char),
      (collapseHyphens (d :: cs)).head? = some d
  | d, [] => rfl
  | d, e :: tl => by
    by_cases h : d = '-' ∧ e = '-'
    · rw [collapseHyphens, if_pos h, head?_collapseHyphens e tl, h.1, h.2]
    · rw [collapseHyphens, if_neg h]
      rfl

theorem chain'_collapseHyphens :
    ∀ (l : List Char),
      (collapseHyphens l).Chain' (fun a b => ¬(a = '-' ∧ b = '-'))
  | [] => by simp [collapseHyphens]
  | [c] => by simp [collapseHyphens]
  | c :: d :: cs => by
    by_cases h : c = '-' ∧ d = '-'
    · rw [collapseHyphens, if_pos h]
      exact chain'_collapseHyphens (d :: cs)
    · rw [collapseHyphens, if_neg h]
      rw [List.chain'_cons']
      refine ⟨?_, chain'_collapseHyphens (d :: cs)⟩
      intro b hb
      rw [head?_collapseHyphens d cs] at hb
      cases hb
      exact h

theorem dropWhile_suffix (p : α → Bool) :
    ∀ (l : List α), l.dropWhile p <:+ l := by
  intro l
  induction l with
  | nil => simp
  | cons a l ih =>
    by_cases h : p a
    · rw [List.dropWhile_cons, if_pos h]
      exact ih.trans (List.suffix_cons a l)
    · rw [List.dropWhile_cons, if_neg h]

theorem head?_dropWhile_sat (p : α → Bool) (l : List α) (a : α)
    (h : (l.dropWhile p).head? = some a) : p a = false := by
  induction l with
  | nil => simp at h
  | cons x l ih =>
    by_cases hx : p x
    · rw [List.dropWhile_cons, if_pos hx] at h
      exact ih h
    · rw [List.dropWhile_cons, if_neg hx] at h
      simp only [List.head?_cons, Option.some.injEq] at h
      subst h
      simpa using hx

theorem getLast?_dropWhile_of_ne_nil (p : α → Bool) (l : List α)
    (h : l.dropWhile p ≠ []) : (l.dropWhile p).getLast? = l.getLast? := by
  rcases dropWhile_suffix p l with ⟨t, ht⟩
  conv_rhs => rw [← ht]
  exact (List.getLast?_append_of_ne_nil _ h).symm

theorem stripDashDot_isInfix (l : List Char) : stripDashDot l <:+: l := by
  unfold stripDashDot
  have h1 : (l.dropWhile (fun c => c = '-' || c = '.')) <:+ l :=
    dropWhile_suffix _ _
  have h2 : ((l.dropWhile (fun c => c = '-' || c = '.')).reverse.dropWhile
      (fun c => c = '-' || c = '.')) <:+
      (l.dropWhile (fun c => c = '-' || c = '.')).reverse :=
    dropWhile_suffix _ _
  have h3 : ((l.dropWhile (fun c => c = '-' || c = '.')).reverse.dropWhile
      (fun c => c = '-' || c = '.')).reverse <+:
      (l.dropWhile (fun c => c = '-' || c = '.')) := by
    rw [← List.reverse_suffix, List.reverse_reverse]
    exact h2
  exact h3.isInfix.trans h1.isInfix

theorem stripDashDot_boundary (l : List Char) :
    ((stripDashDot l).head?.all (fun c => !(c = '-' || c = '.'))) = true ∧
    ((stripDashDot l).getLast?.all (fun c => !(c = '-' || c = '.'))) = true := by
  unfold stripDashDot
  constructor
  · rw [List.head?_reverse]
    cases hv : ((l.dropWhile (fun c => c = '-' || c = '.')).reverse.dropWhile
        (fun c => c = '-' || c = '.')) with
    | nil => rfl
    | cons a t =>
      rw [← hv,
        getLast?_dropWhile_of_ne_nil _ _ (by rw [hv]; exact List.cons_ne_nil a t),
        ← List.head?_reverse ((l.dropWhile (fun c => c = '-' || c = '.')).reverse),
        List.reverse_reverse]
      cases hh : (l.dropWhile (fun c => c = '-' || c = '.')).head? with
      | none => rfl
      | some b =>
        have := head?_dropWhile_sat _ _ _ hh
        simp only [Option.all, this]
        rfl
  · rw [← List.head?_reverse
      (((l.dropWhile (fun c => c = '-' || c = '.')).reverse.dropWhile
        (fun c => c = '-' || c = '.')).reverse), List.reverse_reverse]
    cases hh : ((l.dropWhile (fun c => c = '-' || c = '.')).reverse.dropWhile
        (fun c => c = '-' || c = '.')).head? with
    | none => rfl
    | some b =>
      have := head?_dropWhile_sat _ _ _ hh
      simp only [Option.all, this]
      rfl

/-- The character classes `sanitize_filename` can let through: word
characters, whitespace, hyphen and dot -- with the space character
itself already rewritten into a hyphen. -/
def sanitizedChar (c : Char) : Bool :=
  isWordChar c || (pyIsSpace c && !(c = ' ')) || c = '-' || c = '.'

theorem sanitize_filename_chars (s : String) :
    ((sanitize_filename s).toList.all sanitizedChar) = true := by
  rw [List.all_eq_true]
  intro c hc
  have h1 : c ∈ collapseHyphens
      (((lastSplit '\\' (lastSplit '/' s.toList)).filter
          (fun c => isWordChar c || pyIsSpace c || c = '-' || c = '.')).map
        (fun c => if c = ' ' then '-' else c)) := by
    have : (sanitize_filename s).toList = stripDashDot (collapseHyphens
        (((lastSplit '\\' (lastSplit '/' s.toList)).filter
            (fun c => isWordChar c || pyIsSpace c || c = '-' || c = '.')).map
          (fun c => if c = ' ' then '-' else c))) := rfl
    rw [this] at hc
    exact mem_of_mem_stripDashDot _ _ hc
  have h2 := mem_of_mem_collapseHyphens _ _ h1
  rcases List.mem_map.1 h2 with ⟨c0, hc0, hrepl⟩
  have hkeep := List.of_mem_filter hc0
  by_cases hsp : c0 = ' '
  · simp only [hsp, if_pos rfl] at hrepl
    subst hrepl
    decide
  · simp only [if_neg hsp] at hrepl
    subst hrepl
    simp only [sanitizedChar, Bool.or_eq_true] at hkeep ⊢
    rcases hkeep with ((hw | hs) | hd) | hd
    · exact Or.inl (Or.inl (Or.inl hw))
    · exact Or.inl (Or.inl (Or.inr (by simp [hs, hsp])))
    · exact Or.inl (Or.inr hd)
    · exact Or.inr hd

/-- C9 (amended): sanitized identifiers contain no path separators and
only word characters, non-space whitespace, hyphens and dots (the space
character itself becomes a hyphen); the traversal example collapses to
passwd; and every filesystem access of the storage layer resolves its
path through `sanitize_filename` of the slug. -/
theorem sanitize_filename_claims :
    (∀ s : String,
      ((sanitize_filename s).toList.all sanitizedChar) = true) ∧
    (∀ s : String,
      ((sanitize_filename s).toList.contains '/') = false ∧
      ((sanitize_filename s).toList.contains '\\') = false) ∧
    sanitize_filename "../../etc/passwd" = "passwd" ∧
    (∀ s : String, ((sanitize_filename s).toList.Chain'
      (fun a b => ¬(a = '-' ∧ b = '-')))) ∧
    (∀ s : String,
      ((sanitize_filename s).toList.head?.all
        (fun c => !(c = '-' || c = '.'))) = true ∧
      ((sanitize_filename s).toList.getLast?.all
        (fun c => !(c = '-' || c = '.'))) = true) ∧
    (∀ cfg slug, get_recipe_filepath cfg slug =
      cfg.recipesPath ++ "/" ++ sanitize_filename slug ++ ".md") ∧
    (∀ cfg now store rd, ¬rd.slug = "" →
      (save_recipe cfg now store rd).1 =
        storePut store (sanitize_filename rd.slug) (mkFile rd now)) ∧
    (∀ cfg store slug, load_recipe cfg store slug =
      match (store : List (String × MDFile)).find?
          (fun e => e.1 == sanitize_filename slug) with
      | none => .error .notFound
      | some e =>
        if e.2.size > cfg.maxRecipeSize then .error .tooLarge
        else .ok ⟨slug, get_recipe_filepath cfg slug, e.2.meta, e.2.content⟩) ∧
    (∀ store slug, delete_recipe store slug =
      (if (store : List (String × MDFile)).any
          (fun e => e.1 == sanitize_filename slug) then
        ((store : List (String × MDFile)).filter
          (fun e => !(e.1 == sanitize_filename slug)), true)
      else (store, false))) ∧
    (∀ store slug, recipe_exists store slug =
      (store : List (String × MDFile)).any
        (fun e => e.1 == sanitize_filename slug)) := by
  refine ⟨sanitize_filename_chars, ?_, by decide, ?_, ?_, fun _ _ => rfl, ?_,
    fun _ _ _ => rfl, fun _ _ => rfl, fun _ _ => rfl⟩
  · intro s
    have h := sanitize_filename_chars s
    rw [List.all_eq_true] at h
    constructor
    · by_contra hmem
      rw [Bool.not_eq_false, List.contains_eq_any_beq, List.any_eq_true] at hmem
      rcases hmem with ⟨c, hc, hbeq⟩
      have hce : c = '/' := (eq_of_beq hbeq).symm
      subst hce
      exact absurd (h _ hc) (by decide)
    · by_contra hmem
      rw [Bool.not_eq_false, List.contains_eq_any_beq, List.any_eq_true] at hmem
      rcases hmem with ⟨c, hc, hbeq⟩
      have hce : c = '\\' := (eq_of_beq hbeq).symm
      subst hce
      exact absurd (h _ hc) (by decide)
  · intro s
    have hres : (sanitize_filename s).toList =
        stripDashDot (collapseHyphens
          (((lastSplit '\\' (lastSplit '/' s.toList)).filter
              (fun c => isWordChar c || pyIsSpace c || c = '-' || c = '.')).map
            (fun c => if c = ' ' then '-' else c))) := rfl
    rw [hres]
    exact List.Chain'.infix (chain'_collapseHyphens _) (stripDashDot_isInfix _)
  · intro s
    have hres : (sanitize_filename s).toList =
        stripDashDot (collapseHyphens
          (((lastSplit '\\' (lastSplit '/' s.toList)).filter
              (fun c => isWordChar c || pyIsSpace c || c = '-' || c = '.')).map
            (fun c => if c = ' ' then '-' else c))) := rfl
    rw [hres]
    exact stripDashDot_boundary _
  · intro cfg now store rd h
    simp [save_recipe, h, storedName]

/-- C9 witness: the theorem's save equation applied at a concrete
store and slug. -/
theorem sanitize_filename_claims_witness :
    (save_recipe ⟨"/r", 100⟩ "now" [] { slug := "a b" }).1 =
      storePut [] (sanitize_filename "a b") (mkFile { slug := "a b" } "now") :=
  sanitize_filename_claims.2.2.2.2.2.2.1 ⟨"/r", 100⟩ "now" [] { slug := "a b" }
    (by decide)

/-- C9 counterexample: the claim says a sanitized identifier contains
only alphanumerics and hyphen/underscore/dot, but a tab survives
sanitization unchanged. -/
theorem sanitize_filename_counterexample :
    sanitize_filename "a\tb" = "a\tb" ∧
    ∃ c ∈ (sanitize_filename "a\tb").toList,
      ¬(c.isAlphanum = true ∨ c = '-' ∨ c = '_' ∨ c = '.') := by
  constructor
  · decide
  · exact ⟨'\t', by decide, by decide⟩

/-! ## Claim C10 : rebuild update keeps tags when the document has
none -/

/-- C10: the in-place rebuild update replaces a row's tag associations
only when the loaded document carries a non-empty tag list; an absent or
empty tag list leaves the existing associations (and the tag table)
untouched, while title, description, servings, the three times and the
update stamp are still overwritten (and the identity fields are not);
moreover the rebuild loop's update branch is exactly this update. -/
theorem rebuild_update_tag_policy (r : Recipe) (d : LoadedDoc) (tick : Nat)
    (table : List String) :
    (d.meta.tags.getD [] = [] →
      (updateExisting r d tick table).1.tags = r.tags ∧
      (updateExisting r d tick table).2 = table) ∧
    (¬d.meta.tags.getD [] = [] →
      (updateExisting r d tick table).1.tags =
        (get_or_create_tags (d.meta.tags.getD []) table).1 ∧
      (updateExisting r d tick table).2 =
        (get_or_create_tags (d.meta.tags.getD []) table).2) ∧
    (updateExisting r d tick table).1.title = d.meta.title.getD r.title ∧
    (updateExisting r d tick table).1.description = d.meta.description.getD "" ∧
    (updateExisting r d tick table).1.servings = d.meta.servings.getD "" ∧
    (updateExisting r d tick table).1.prep_time = d.meta.prep_time ∧
    (updateExisting r d tick table).1.cook_time = d.meta.cook_time ∧
    (updateExisting r d tick table).1.total_time = d.meta.total_time ∧
    (updateExisting r d tick table).1.updated_at = tick ∧
    (updateExisting r d tick table).1.slug = r.slug ∧
    (updateExisting r d tick table).1.source_url = r.source_url ∧
    (updateExisting r d tick table).1.filepath = r.filepath ∧
    (updateExisting r d tick table).1.created_at = r.created_at ∧
    (∀ cfg store acc slug e,
      load_recipe cfg store slug = .ok d →
      acc.working.find? (fun x => x.1 == slug) = some e →
      (rbStep cfg store tick table acc slug).pending =
        acc.pending.map (fun q =>
          if q.slug == slug then (updateExisting e.2 d tick table).1
          else q)) := by
  refine ⟨fun h => ⟨by simp [updateExisting, h], by simp [updateExisting, h]⟩,
    fun h => ⟨by simp [updateExisting, h], by simp [updateExisting, h]⟩,
    ?_, ?_, ?_, ?_, ?_, ?_, ?_, ?_, ?_, ?_, ?_,
    fun cfg store acc slug e hload hfind => by simp [rbStep, hload, hfind]⟩ <;>
    (by_cases h : d.meta.tags.getD [] = [] <;> simp [updateExisting, h])

/-- C10 witness fixtures: a row and a loaded document carrying no tags
key. -/
def c10row : Recipe :=
  { title := "t", slug := "a", filepath := "/r/a.md", source_url := "u"
    description := "old", servings := "2", prep_time := some 1
    cook_time := none, total_time := none, tags := ["keep"]
    created_at := 0, updated_at := 0 }

/-- C10 witness document: metadata without tags. -/
def c10doc : LoadedDoc :=
  { slug := "a", filepath := "/r/a.md"
    meta := { title := some "T2", description := some "new" }
    content := "body" }

/-- C10 witness: the update of a concrete row from a document with no
tags keeps the tag associations while overwriting the metadata. -/
theorem rebuild_update_tag_policy_witness :
    (updateExisting c10row c10doc 9 ["keep"]).1.tags = c10row.tags ∧
    (updateExisting c10row c10doc 9 ["keep"]).2 = ["keep"] :=
  (rebuild_update_tag_policy c10row c10doc 9 ["keep"]).1 (by decide)

/-! ## Claim C2 : duplicate source URL is rejected without mutation -/

/-- C2: on an index state satisfying the schema's uniqueness invariant,
adding a record whose source_url is already present fails with the
duplicate error carrying the existing row's slug, and the state (rows
and tag table alike) is returned unchanged. -/
theorem add_duplicate_url_rejected (cfg : StorageConfig) (now : UtcTime)
    (tick : Nat) (st : IndexState) (rd : AddInput) (hwf : WF st)
    (hdup : ∃ r ∈ st.recipes, r.source_url = rd.source_url) :
    ∃ r ∈ st.recipes, r.source_url = rd.source_url ∧
      add_recipe_to_index cfg now tick st rd =
        (st, .error (.alreadyExists r.slug)) := by
  have hsome : (st.recipes.find? (fun r => r.source_url == rd.source_url)).isSome := by
    rw [List.find?_isSome]
    rcases hdup with ⟨r, hr, he⟩
    exact ⟨r, hr, by simp [he]⟩
  rcases Option.isSome_iff_exists.1 hsome with ⟨r0, hr0⟩
  refine ⟨r0, List.mem_of_find?_eq_some hr0, ?_, ?_⟩
  · simpa using List.find?_some hr0
  · simp [add_recipe_to_index, hr0]

/-- C2 witness fixture: a one-row state. -/
def c2row : Recipe :=
  { title := "t", slug := "a", filepath := "/r/a.md", source_url := "u"
    description := "", servings := "", prep_time := none, cook_time := none
    total_time := none, tags := [], created_at := 0, updated_at := 0 }

/-- C2 witness: a concrete duplicate-URL add is rejected with the
existing slug and leaves the state unchanged. -/
theorem add_duplicate_url_rejected_witness :
    ∃ r ∈ (⟨[c2row], []⟩ : IndexState).recipes, r.source_url = "u" ∧
      add_recipe_to_index ⟨"/r", 100⟩ ⟨2024, 1, 1, 0, 0, 0⟩ 3 ⟨[c2row], []⟩
          { title := "n", slug := "b", source_url := "u" } =
        (⟨[c2row], []⟩, .error (.alreadyExists r.slug)) :=
  add_duplicate_url_rejected ⟨"/r", 100⟩ ⟨2024, 1, 1, 0, 0, 0⟩ 3 ⟨[c2row], []⟩
    { title := "n", slug := "b", source_url := "u" } (by decide)
    ⟨c2row, by decide, by decide⟩

/-! ## Claim C3 : slug collision policy -/

theorem cleanedTagNames_cons (nm : String) (names : List String) :
    cleanedTagNames (nm :: names) =
      (if (⟨pyStrip (nm.toList.map Char.toLower)⟩ : String) = ""
       then cleanedTagNames names
       else (⟨pyStrip (nm.toList.map Char.toLower)⟩ : String) ::
         cleanedTagNames names) := by
  unfold cleanedTagNames
  rw [List.map_cons, List.filter_cons]
  by_cases h : (⟨pyStrip (nm.toList.map Char.toLower)⟩ : String) = ""
  · simp [h]
  · simp [h]

theorem tagStep_snd_foldl (table : List String) :
    ∀ (names : List String) (a c : List String),
      (names.foldl (tagStep table) (a, c)).2 =
        c ++ (cleanedTagNames names).filter (fun n => !(table.contains n)) := by
  intro names
  induction names with
  | nil =>
    intro a c
    simp [cleanedTagNames]
  | cons nm names ih =>
    intro a c
    rw [List.foldl_cons]
    by_cases h1 : (⟨pyStrip (nm.toList.map Char.toLower)⟩ : String) = ""
    · have hs : tagStep table (a, c) nm = (a, c) := by
        simp only [tagStep]
        rw [if_pos h1]
      rw [hs, ih a c, cleanedTagNames_cons, if_pos h1]
    · by_cases h2 : table.contains (⟨pyStrip (nm.toList.map Char.toLower)⟩ : String) = true
      · have hs : tagStep table (a, c) nm =
            ((if a.contains (⟨pyStrip (nm.toList.map Char.toLower)⟩ : String)
              then a
              else a ++ [(⟨pyStrip (nm.toList.map Char.toLower)⟩ : String)]), c) := by
          simp only [tagStep]
          rw [if_neg h1, if_pos h2]
        rw [hs, ih _ c, cleanedTagNames_cons, if_neg h1, List.filter_cons]
        have hcond : ¬((!(table.contains
            (⟨pyStrip (nm.toList.map Char.toLower)⟩ : String))) = true) := by
          intro hx
          rw [h2] at hx
          exact absurd hx (by decide)
        rw [if_neg hcond]
      · have hs : tagStep table (a, c) nm =
            (a ++ [(⟨pyStrip (nm.toList.map Char.toLower)⟩ : String)],
             c ++ [(⟨pyStrip (nm.toList.map Char.toLower)⟩ : String)]) := by
          simp only [tagStep]
          rw [if_neg h1, if_neg h2]
        rw [hs, ih _ _, cleanedTagNames_cons, if_neg h1, List.filter_cons]
        have h2f : (table.contains
            (⟨pyStrip (nm.toList.map Char.toLower)⟩ : String)) = false := by
          cases h3 : table.contains (⟨pyStrip (nm.toList.map Char.toLower)⟩ : String)
          · rfl
          · exact absurd h3 h2
        have hcond : (!(table.contains
            (⟨pyStrip (nm.toList.map Char.toLower)⟩ : String))) = true := by
          rw [h2f]
          decide
        rw [if_pos hcond, List.append_assoc]
        rfl

theorem createdTags_eq (names table : List String) :
    createdTags names table =
      (cleanedTagNames names).filter (fun n => !(table.contains n)) := by
  show ((table ++ (names.foldl (tagStep table) ([], [])).2).drop table.length) = _
  rw [tagStep_snd_foldl table names [] []]
  rw [List.nil_append, List.drop_left]

theorem mem_table_or_created (names table : List String) (n : String)
    (hn : n ∈ cleanedTagNames names) :
    n ∈ table ∨ n ∈ createdTags names table := by
  rw [createdTags_eq]
  by_cases h : n ∈ table
  · exact Or.inl h
  · refine Or.inr (List.mem_filter.2 ⟨hn, ?_⟩)
    have h3 : table.contains n = false := by
      cases h4 : table.contains n
      · rfl
      · exact absurd (List.elem_iff.1 h4) h
    rw [h3]
    rfl

theorem createdTags_nil (table : List String) : createdTags [] table = [] := by
  rw [createdTags_eq]
  rfl

theorem createdTags_eq_nil (names table : List String)
    (h : ∀ n ∈ cleanedTagNames names, n ∈ table) :
    createdTags names table = [] := by
  rw [createdTags_eq, List.filter_eq_nil_iff]
  intro n hn
  have h3 : table.contains n = true := List.elem_iff.2 (h n hn)
  have h4 : n ∈ table := h n hn
  simp [h3, h4]

/-- A time field in canonical form: absent or positive (the normalizer
discards non-positive times, see `parse_time_string` and
`RecipeScraper._extract_time`). -/
def canonNat (o : Option Nat) : Bool :=
  match o with
  | some t => decide (0 < t)
  | none => true

/-- A record in canonical form, as the scrape-and-normalize pipeline
produces it: title and source_url present, times absent-or-positive, and
no present-but-empty optional field. -/
def CanonicalInput (rd : SaveInput) : Bool :=
  rd.title.isSome && rd.source_url.isSome &&
  canonNat rd.prep_time && canonNat rd.cook_time && canonNat rd.total_time &&
  !(rd.servings == some "") && !(rd.tags == some []) && !(rd.author == some "")

theorem truthyNat_eq_self (o : Option Nat) (h : canonNat o = true) :
    truthyNat o = o := by
  cases o with
  | none => rfl
  | some t =>
    simp only [canonNat, decide_eq_true_eq] at h
    simp [truthyNat, Nat.pos_iff_ne_zero.1 h]

theorem truthyStr_eq_self (o : Option String) (h : (o == some "") = false) :
    truthyStr o = o := by
  cases o with
  | none => rfl
  | some s =>
    simp only [beq_eq_false_iff_ne, ne_eq, Option.some.injEq] at h
    simp [truthyStr, h]

theorem truthyList_eq_self (o : Option (List String))
    (h : (o == some []) = false) : truthyList o = o := by
  cases o with
  | none => rfl
  | some l =>
    simp only [beq_eq_false_iff_ne, ne_eq, Option.some.injEq] at h
    simp [truthyList, h]

theorem bool_not_true (b : Bool) (h : (!b) = true) : b = false := by
  cases b
  · rfl
  · exact absurd h (by decide)

theorem find?_put_of_any :
    ∀ (l : List (String × MDFile)) (k : String) (f : MDFile),
      l.any (fun e => e.1 == k) = true →
      (l.map (fun e => if e.1 == k then (k, f) else e)).find?
        (fun e => e.1 == k) = some (k, f) := by
  intro l k f
  induction l with
  | nil => simp
  | cons e l ih =>
    intro h
    by_cases he : (e.1 == k) = true
    · have hhead : (if e.1 == k then (k, f) else e) = (k, f) := by
        simp [he]
      rw [List.map_cons, hhead, List.find?_cons_of_pos _ (by simp)]
    · have hhead : (if e.1 == k then (k, f) else e) = e := by
        simp [he]
      simp only [List.any_cons, he, Bool.false_or] at h
      rw [List.map_cons, hhead, List.find?_cons_of_neg _ (by simp [he])]
      exact ih h

/-- Writing under a key and then looking that key up yields exactly the
written file, whatever the store held before. -/
theorem find?_storePut (store : DocStore) (k : String) (f : MDFile) :
    (storePut store k f : List (String × MDFile)).find?
      (fun e => e.1 == k) = some (k, f) := by
  unfold storePut
  by_cases h : (store : List (String × MDFile)).any (fun e => e.1 == k) = true
  · rw [if_pos h]
    exact find?_put_of_any _ _ _ h
  · rw [if_neg h, List.find?_append]
    have hnone : (store : List (String × MDFile)).find? (fun e => e.1 == k) = none := by
      rw [List.find?_eq_none]
      intro x hx
      intro hb
      exact h (List.any_eq_true.2 ⟨x, hx, hb⟩)
    rw [hnone]
    simp [List.find?]

/-- C6 (amended): for a canonical record with a non-empty slug whose
rendered document -- YAML frontmatter header plus markdown body --
stays within the configured size ceiling, save succeeds and a
subsequent load of the same slug returns the stored metadata -- which
equals the record's canonical fields -- together with the raw body
text. -/
theorem save_load_round_trip (cfg : StorageConfig) (now : String)
    (store : DocStore) (rd : SaveInput)
    (hslug : ¬rd.slug = "")
    (hcanon : CanonicalInput rd = true)
    (hsize : (renderDoc (mkMeta rd now) (mkContent rd)).length ≤
      cfg.maxRecipeSize) :
    (save_recipe cfg now store rd).2 = .ok (get_recipe_filepath cfg rd.slug) ∧
    load_recipe cfg (save_recipe cfg now store rd).1 rd.slug =
      .ok { slug := rd.slug
            filepath := get_recipe_filepath cfg rd.slug
            meta := mkMeta rd now
            content := mkContent rd } ∧
    (mkMeta rd now).title = rd.title ∧
    (mkMeta rd now).source_url = rd.source_url ∧
    (mkMeta rd now).prep_time = rd.prep_time ∧
    (mkMeta rd now).cook_time = rd.cook_time ∧
    (mkMeta rd now).total_time = rd.total_time ∧
    (mkMeta rd now).servings = rd.servings ∧
    (mkMeta rd now).tags = rd.tags ∧
    (mkMeta rd now).author = rd.author := by
  simp only [CanonicalInput, Bool.and_eq_true] at hcanon
  obtain ⟨⟨⟨⟨⟨⟨⟨ht, hu⟩, hp⟩, hc⟩, htt⟩, hsv⟩, htg⟩, ha⟩ := hcanon
  have hsave1 : (save_recipe cfg now store rd).1 =
      storePut store (storedName rd.slug) (mkFile rd now) := by
    simp [save_recipe, hslug]
  refine ⟨by simp [save_recipe, hslug], ?_, ?_, ?_, ?_, ?_, ?_, ?_, ?_, ?_⟩
  · rw [hsave1]
    unfold load_recipe
    rw [find?_storePut]
    have hle : ¬(mkFile rd now).size > cfg.maxRecipeSize := by
      simp only [mkFile]
      omega
    simp only [if_neg hle]
    rfl
  · rcases Option.isSome_iff_exists.1 ht with ⟨t, htt2⟩
    simp [mkMeta, htt2]
  · rcases Option.isSome_iff_exists.1 hu with ⟨u, huu⟩
    simp [mkMeta, huu]
  · exact truthyNat_eq_self _ hp
  · exact truthyNat_eq_self _ hc
  · exact truthyNat_eq_self _ htt
  · exact truthyStr_eq_self _ (bool_not_true _ hsv)
  · exact truthyList_eq_self _ (bool_not_true _ htg)
  · exact truthyStr_eq_self _ (bool_not_true _ ha)

/-- C6 witness fixture: a small canonical record. -/
def c6input : SaveInput :=
  { slug := "my-dish"
    title := some "My Dish"
    source_url := some "http://x"
    description := some "Nice."
    ingredients := ["1 egg", "2 cups flour"]
    instructions := some "Mix.\nBake."
    prep_time := some 10
    tags := some ["a", "b"]
    author := some "Me"
    scraped_at := some "2024-01-02T03:04:05" }

/-- C6 witness: the round-trip theorem applied at a concrete record,
store and configuration. -/
theorem save_load_round_trip_witness :
    load_recipe ⟨"/data/recipes", 1048576⟩
        (save_recipe ⟨"/data/recipes", 1048576⟩ "2024-01-01T00:00:00" [] c6input).1
        c6input.slug =
      .ok { slug := c6input.slug
            filepath := get_recipe_filepath ⟨"/data/recipes", 1048576⟩ c6input.slug
            meta := mkMeta c6input "2024-01-01T00:00:00"
            content := mkContent c6input } ∧
    (mkMeta c6input "2024-01-01T00:00:00").tags = c6input.tags :=
  ⟨(save_load_round_trip ⟨"/data/recipes", 1048576⟩ "2024-01-01T00:00:00" [] c6input
      (by decide) (by decide) (by decide)).2.1,
   (save_load_round_trip ⟨"/data/recipes", 1048576⟩ "2024-01-01T00:00:00" [] c6input
      (by decide) (by decide) (by decide)).2.2.2.2.2.2.2.2.1⟩

/-- Every line passed to the joiner is no longer than the joined
result. -/
theorem length_le_joinLines :
    ∀ (l : List String) (p : String), p ∈ l → p.length ≤ (joinLines l).length := by
  intro l
  induction l with
  | nil => simp
  | cons a l ih =>
    intro p hp
    cases l with
    | nil =>
      simp only [List.mem_singleton] at hp
      subst hp
      exact Nat.le_refl _
    | cons b t =>
      have hj : joinLines (a :: b :: t) = a ++ "\n" ++ joinLines (b :: t) := rfl
      rcases List.mem_cons.1 hp with h | h
      · subst h
        rw [hj, String.length_append, String.length_append]
        omega
      · have := ih p h
        rw [hj, String.length_append, String.length_append]
        omega

/-- A stored ingredient line bounds the rendered body's length from
below. -/
theorem ingredient_le_mkContent (rd : SaveInput) (i : String)
    (hi : i ∈ rd.ingredients) : i.length ≤ (mkContent rd).length := by
  have hne : ¬rd.ingredients = [] := by
    intro h
    rw [h] at hi
    simp at hi
  have hmem : ("- " ++ i) ∈
      (["# " ++ rd.title.getD "Untitled Recipe" ++ "\n"] ++
        (if pyStripStr (rd.description.getD "") = "" then []
         else [pyStripStr (rd.description.getD "") ++ "\n"]) ++
        (if rd.ingredients = [] then []
         else "## Ingredients\n" :: rd.ingredients.map (fun i => "- " ++ i) ++ [""]) ++
        (if pyStripStr (rd.instructions.getD "") = "" then []
         else "## Instructions\n" :: instrLines (pyStripStr (rd.instructions.getD "")) ++ [""]) ++
        (if pyStripStr (rd.notes.getD "") = "" then []
         else ["## Notes\n", pyStripStr (rd.notes.getD "")])) := by
    rw [if_neg hne]
    refine List.mem_append_left _ (List.mem_append_left _ (List.mem_append_right _ ?_))
    refine List.mem_cons_of_mem _ (List.mem_append_left _ ?_)
    exact List.mem_map.2 ⟨i, hi, rfl⟩
  have hj : ("- " ++ i).length ≤ (mkContent rd).length := by
    unfold mkContent
    exact length_le_joinLines _ _ hmem
  rw [String.length_append] at hj
  omega

/-- Dropping a satisfying prefix never drops occurrences of a character
that fails the predicate. -/
theorem count_dropWhile (p : Char → Bool) (c : Char) (hc : p c = false) :
    ∀ l : List Char, (l.dropWhile p).count c = l.count c := by
  intro l
  induction l with
  | nil => rfl
  | cons x l ih =>
    by_cases hx : p x
    · have hxc : (x == c) = false := by
        cases hbe : x == c
        · rfl
        · rw [eq_of_beq hbe, hc] at hx
          exact absurd hx (by decide)
      simp only [List.dropWhile_cons, hx, if_true]
      rw [ih, List.count_cons, hxc]
      rfl
    · simp only [List.dropWhile_cons, hx]
      rfl

/-- `str.strip()` removes only whitespace, so it keeps every occurrence
of a non-whitespace character. -/
theorem count_pyStrip (c : Char) (hc : pyIsSpace c = false) (l : List Char) :
    (pyStrip l).count c = l.count c := by
  unfold pyStrip
  rw [List.count_reverse, count_dropWhile _ _ hc, List.count_reverse,
    count_dropWhile _ _ hc]

theorem count_replicate_self (c : Char) :
    ∀ n : Nat, (List.replicate n c).count c = n := by
  intro n
  induction n with
  | zero => rfl
  | succ n ih =>
    rw [List.replicate_succ, List.count_cons, ih]
    simp

/-- Occurrences in a line bound the occurrences in the joined result
from below. -/
theorem count_le_joinLines (c : Char) :
    ∀ (l : List String) (p : String), p ∈ l →
      p.toList.count c ≤ (joinLines l).toList.count c := by
  intro l
  induction l with
  | nil => simp
  | cons a l ih =>
    intro p hp
    cases l with
    | nil =>
      simp only [List.mem_singleton] at hp
      subst hp
      exact Nat.le_refl _
    | cons b t =>
      have hj : joinLines (a :: b :: t) = a ++ "\n" ++ joinLines (b :: t) := rfl
      have htl : (a ++ "\n" ++ joinLines (b :: t)).toList =
          a.toList ++ ("\n".toList ++ (joinLines (b :: t)).toList) := by
        rw [show (a ++ "\n" ++ joinLines (b :: t)).toList =
          (a.toList ++ "\n".toList) ++ (joinLines (b :: t)).toList from rfl]
        rw [List.append_assoc]
      rcases List.mem_cons.1 hp with h | h
      · subst h
        rw [hj, htl, List.count_append, List.count_append]
        omega
      · have := ih p h
        rw [hj, htl, List.count_append, List.count_append]
        omega

/-- Occurrences in a stored ingredient bound the occurrences in the
rendered body from below. -/
theorem ingredient_count_le_mkContent (rd : SaveInput) (i : String) (c : Char)
    (hi : i ∈ rd.ingredients) :
    i.toList.count c ≤ (mkContent rd).toList.count c := by
  have hne : ¬rd.ingredients = [] := by
    intro h
    rw [h] at hi
    simp at hi
  have hmem : ("- " ++ i) ∈
      (["# " ++ rd.title.getD "Untitled Recipe" ++ "\n"] ++
        (if pyStripStr (rd.description.getD "") = "" then []
         else [pyStripStr (rd.description.getD "") ++ "\n"]) ++
        (if rd.ingredients = [] then []
         else "## Ingredients\n" :: rd.ingredients.map (fun i => "- " ++ i) ++ [""]) ++
        (if pyStripStr (rd.instructions.getD "") = "" then []
         else "## Instructions\n" :: instrLines (pyStripStr (rd.instructions.getD "")) ++ [""]) ++
        (if pyStripStr (rd.notes.getD "") = "" then []
         else ["## Notes\n", pyStripStr (rd.notes.getD "")])) := by
    rw [if_neg hne]
    refine List.mem_append_left _ (List.mem_append_left _ (List.mem_append_right _ ?_))
    refine List.mem_cons_of_mem _ (List.mem_append_left _ ?_)
    exact List.mem_map.2 ⟨i, hi, rfl⟩
  have hj : ("- " ++ i).toList.count c ≤ (mkContent rd).toList.count c := by
    unfold mkContent
    exact count_le_joinLines c _ _ hmem
  have hsplit : ("- " ++ i).toList.count c =
      ("- ").toList.count c + i.toList.count c := by
    rw [show ("- " ++ i).toList = ("- ").toList ++ i.toList from rfl,
      List.count_append]
  omega

/-- C6 counterexample fixture: a canonical record whose single
ingredient is longer than the configured size ceiling. -/
def c6big : SaveInput :=
  { slug := "r"
    title := some "t"
    source_url := some "u"
    ingredients := [⟨List.replicate 1048577 'a'⟩] }

/-- C6 counterexample: a valid (canonical, non-empty slug) record whose
rendered document exceeds the 1 MiB ceiling: save succeeds but the
subsequent load of the same slug fails with the size error instead of
returning the record's fields. -/
theorem load_recipe_size_exceeded (cfg : StorageConfig) (store : DocStore)
    (slug : String) (e : String × MDFile)
    (hf : store.find? (fun x => x.1 == storedName slug) = some e)
    (hs : e.2.size > cfg.maxRecipeSize) :
    load_recipe cfg store slug = .error .tooLarge := by
  unfold load_recipe
  rw [hf]
  show (if e.2.size > cfg.maxRecipeSize then Except.error StorageErr.tooLarge
    else Except.ok (LoadedDoc.mk slug (get_recipe_filepath cfg slug)
      e.2.meta e.2.content)) =
    Except.error StorageErr.tooLarge
  rw [if_pos hs]

theorem save_load_round_trip_counterexample :
    CanonicalInput c6big = true ∧
    (c6big.slug == "") = false ∧
    (save_recipe ⟨"/data/recipes", 1048576⟩ "" [] c6big).2 =
      .ok (get_recipe_filepath ⟨"/data/recipes", 1048576⟩ c6big.slug) ∧
    load_recipe ⟨"/data/recipes", 1048576⟩
        (save_recipe ⟨"/data/recipes", 1048576⟩ "" [] c6big).1 c6big.slug =
      .error .tooLarge := by
  have hs : ¬c6big.slug = "" := by decide
  have hcount : 1048577 ≤ (mkContent c6big).toList.count 'a' := by
    have h := ingredient_count_le_mkContent c6big
      (String.mk (List.replicate 1048577 'a')) 'a' (List.mem_singleton.2 rfl)
    have hb : (⟨List.replicate 1048577 'a'⟩ : String).toList.count 'a' =
        1048577 := by
      show (List.replicate 1048577 'a').count 'a' = 1048577
      exact count_replicate_self 'a' 1048577
    rw [hb] at h
    exact h
  have hput : (save_recipe ⟨"/data/recipes", 1048576⟩ "" [] c6big).1 =
      storePut [] (storedName c6big.slug) (mkFile c6big "") := by
    unfold save_recipe
    rw [if_neg hs]
  have hsave2 : (save_recipe ⟨"/data/recipes", 1048576⟩ "" [] c6big).2 =
      .ok (get_recipe_filepath ⟨"/data/recipes", 1048576⟩ c6big.slug) := by
    unfold save_recipe
    rw [if_neg hs]
  have h1 : (pyStrip (("---\n" ++ renderMeta (mkMeta c6big "") ++
        "\n---\n\n" ++ mkContent c6big)).toList).count 'a' ≤
      (pyStrip (("---\n" ++ renderMeta (mkMeta c6big "") ++ "\n---\n\n" ++
        mkContent c6big)).toList).length := List.count_le_length _ _
  have h2 := count_pyStrip 'a' (by decide)
    (("---\n" ++ renderMeta (mkMeta c6big "") ++ "\n---\n\n" ++
      mkContent c6big)).toList
  have h3 : (("---\n" ++ renderMeta (mkMeta c6big "") ++ "\n---\n\n" ++
      mkContent c6big)).toList.count 'a' =
      ("---\n" ++ renderMeta (mkMeta c6big "") ++ "\n---\n\n").toList.count 'a' +
      (mkContent c6big).toList.count 'a' := by
    rw [show (("---\n" ++ renderMeta (mkMeta c6big "") ++ "\n---\n\n" ++
        mkContent c6big)).toList =
      ("---\n" ++ renderMeta (mkMeta c6big "") ++ "\n---\n\n").toList ++
        (mkContent c6big).toList from rfl, List.count_append]
  have hrd : (renderDoc (mkMeta c6big "") (mkContent c6big)).length =
      (pyStrip (("---\n" ++ renderMeta (mkMeta c6big "") ++ "\n---\n\n" ++
        mkContent c6big)).toList).length := rfl
  have hsz : (mkFile c6big "").size =
      (renderDoc (mkMeta c6big "") (mkContent c6big)).length := by
    simp only [mkFile]
  have hbig : (mkFile c6big "").size > 1048576 := by
    rw [hsz, hrd]
    omega
  refine ⟨by decide, by decide, hsave2, ?_⟩
  rw [hput]
  exact load_recipe_size_exceeded _ _ _ _ (find?_storePut _ _ _) hbig

/-! ## Claim C5 : per-item error isolation and commit atomicity -/

theorem rbStep_errors (cfg : StorageConfig) (store : DocStore) (tick : Nat)
    (committed : List String) (acc : RbAcc) (s : String) :
    (rbStep cfg store tick committed acc s).errors =
      acc.errors + (if loadOk cfg store s then 0 else 1) := by
  cases hl : load_recipe cfg store s with
  | error e => simp [rbStep, loadOk, hl]
  | ok d =>
    cases hf : acc.working.find? (fun e => e.1 == s) with
    | none => simp [rbStep, loadOk, hl, hf]
    | some e => simp [rbStep, loadOk, hl, hf]

theorem rbStep_progress (cfg : StorageConfig) (store : DocStore) (tick : Nat)
    (committed : List String) (acc : RbAcc) (s : String) :
    (rbStep cfg store tick committed acc s).indexed +
      (rbStep cfg store tick committed acc s).updated =
      acc.indexed + acc.updated + (if loadOk cfg store s then 1 else 0) := by
  cases hl : load_recipe cfg store s with
  | error e => simp [rbStep, loadOk, hl]
  | ok d =>
    cases hf : acc.working.find? (fun e => e.1 == s) with
    | none =>
      simp [rbStep, loadOk, hl, hf]
      try omega
    | some e =>
      simp [rbStep, loadOk, hl, hf]
      try omega

theorem rbFold_counts (cfg : StorageConfig) (store : DocStore) (tick : Nat)
    (committed : List String) :
    ∀ (slugs : List String) (acc : RbAcc),
      ((slugs.foldl (rbStep cfg store tick committed) acc).errors =
        acc.errors +
          (slugs.filter (fun s => !(loadOk cfg store s))).length) ∧
      ((slugs.foldl (rbStep cfg store tick committed) acc).indexed +
          (slugs.foldl (rbStep cfg store tick committed) acc).updated =
        acc.indexed + acc.updated +
          (slugs.filter (fun s => loadOk cfg store s)).length) := by
  intro slugs
  induction slugs with
  | nil => intro acc; simp
  | cons s slugs ih =>
    intro acc
    have he := rbStep_errors cfg store tick committed acc s
    have hp := rbStep_progress cfg store tick committed acc s
    have hi := ih (rbStep cfg store tick committed acc s)
    rw [List.foldl_cons]
    by_cases hok : loadOk cfg store s = true
    · simp [hok] at he hp
      have hc1 : ((s :: slugs).filter (fun x => !(loadOk cfg store x))) =
          slugs.filter (fun x => !(loadOk cfg store x)) := by
        rw [List.filter_cons]
        simp [hok]
      have hc2 : ((s :: slugs).filter (fun x => loadOk cfg store x)).length =
          (slugs.filter (fun x => loadOk cfg store x)).length + 1 := by
        rw [List.filter_cons]
        simp [hok]
      refine ⟨?_, ?_⟩
      · rw [hi.1, he, hc1]
        try omega
      · rw [hi.2, hp, hc2]
        try omega
    · have hok2 : loadOk cfg store s = false := by
        cases h2 : loadOk cfg store s
        · rfl
        · exact absurd h2 hok
      simp [hok2] at he hp
      have hc1 : ((s :: slugs).filter (fun x => !(loadOk cfg store x))).length =
          (slugs.filter (fun x => !(loadOk cfg store x))).length + 1 := by
        rw [List.filter_cons]
        simp [hok2]
      have hc2 : ((s :: slugs).filter (fun x => loadOk cfg store x)) =
          slugs.filter (fun x => loadOk cfg store x) := by
        rw [List.filter_cons]
        simp [hok2]
      refine ⟨?_, ?_⟩
      · rw [hi.1, he, hc1]
        try omega
      · rw [hi.2, hp, hc2]
        try omega

/-- C5: per-item load failures during rebuild are counted and do not
abort the pass -- when the rebuild returns, its statistics show one
error per failing document and one insert-or-update per loadable
document, over the full file listing -- and the pass is all-or-nothing
at the commit point: when the commit step fails (an unexpected,
non-per-item failure), the session is rolled back, an error is
surfaced, and the index equals its state before the rebuild started. -/
theorem rebuild_error_isolation_and_atomicity (cfg : StorageConfig)
    (store : DocStore) (tick : Nat) (st : IndexState) :
    (∀ st2 stats, rebuild_index cfg store tick true st = (st2, .ok stats) →
      stats.errors = ((list_recipes store).filter
        (fun s => !(loadOk cfg store s))).length ∧
      stats.indexed + stats.updated = ((list_recipes store).filter
        (fun s => loadOk cfg store s)).length ∧
      stats.total_files = store.length) ∧
    rebuild_index cfg store tick false st = (st, .error .failure) := by
  constructor
  · intro st2 stats h
    unfold rebuild_index at h
    simp only [Bool.true_and] at h
    split at h
    · rw [Prod.mk.injEq] at h
      have hstats := h.2
      rw [Except.ok.injEq] at hstats
      subst hstats
      have hc := rbFold_counts cfg store tick st.tagNames (list_recipes store)
        (rbAcc0 st)
      refine ⟨?_, ?_, by simp [list_recipes]⟩
      · have := (hc.1 : _)
        simpa [rbPass, rbAcc0] using this
      · have := (hc.2 : _)
        simpa [rbPass, rbAcc0] using this
    · exact absurd h (by simp)
  · unfold rebuild_index
    simp

/-- C5 witness fixtures: a store with one loadable and one oversized
document. -/
def c5store : DocStore :=
  [("good", { meta := { title := some "G" }, content := "x", size := 1 }),
   ("bad", { meta := {}, content := "", size := 200 })]

/-- C5 witness: on a concrete store, a successful rebuild counts the
oversized document as an error while still indexing the other, and a
failing commit leaves the empty index unchanged. -/
theorem rebuild_error_isolation_and_atomicity_witness :
    ((rebuild_index ⟨"/r", 100⟩ c5store 0 true ⟨[], []⟩).2 =
      .ok ⟨2, 1, 0, 1, 0⟩) ∧
    rebuild_index ⟨"/r", 100⟩ c5store 0 false ⟨[], []⟩ =
      (⟨[], []⟩, .error .failure) :=
  ⟨by decide,
   (rebuild_error_isolation_and_atomicity ⟨"/r", 100⟩ c5store 0 ⟨[], []⟩).2⟩

/-! ## Machinery for the rebuild characterization (claims C1 and C4) -/

/-- The row fields the rebuild update never touches: slug, source_url,
filepath and creation instant.  The first three are exactly the
commit-time uniqueness checks. -/
def rowKey (r : Recipe) : String × String × String × Nat :=
  (r.slug, r.source_url, r.filepath, r.created_at)

theorem map_eraseP_comm (f : α → β) (p : β → Bool) :
    ∀ (l : List α), (l.eraseP (fun x => p (f x))).map f = (l.map f).eraseP p := by
  intro l
  induction l with
  | nil => rfl
  | cons a l ih =>
    rw [List.eraseP_cons, List.map_cons, List.eraseP_cons]
    cases h : p (f a) with
    | true => simp [h]
    | false => simp [h, ih]

theorem mem_eraseP_of_ne (k k' : String) (hne : ¬k' = k) :
    ∀ (l : List String), k' ∈ l → k' ∈ l.eraseP (fun x => x == k) := by
  intro l
  induction l with
  | nil => simp
  | cons a l ih =>
    intro h
    rw [List.eraseP_cons]
    cases ha : (a == k) with
    | true =>
      rcases List.mem_cons.1 h with h2 | h2
      · exact absurd (h2.trans (eq_of_beq ha)) hne
      · simpa using h2
    | false =>
      rcases List.mem_cons.1 h with h2 | h2
      · simp [h2]
      · simp [ih h2]

theorem not_mem_eraseP_nodup (k : String) :
    ∀ (l : List String), l.Nodup → ¬k ∈ l.eraseP (fun x => x == k) := by
  intro l
  induction l with
  | nil => simp
  | cons a l ih =>
    intro hnd
    rw [List.eraseP_cons]
    cases ha : (a == k) with
    | true =>
      have : a = k := eq_of_beq ha
      subst this
      simpa using (List.nodup_cons.1 hnd).1
    | false =>
      intro hmem
      rcases List.mem_cons.1 (by simpa using hmem) with h2 | h2
      · exact absurd (beq_iff_eq.2 h2.symm) (by simp [ha])
      · exact ih (List.nodup_cons.1 hnd).2 h2

theorem mem_eraseP_nodup_iff (k k' : String) (l : List String)
    (hnd : l.Nodup) :
    k' ∈ l.eraseP (fun x => x == k) ↔ (k' ∈ l ∧ ¬k' = k) := by
  constructor
  · intro h
    have hmem : k' ∈ l := List.mem_of_mem_eraseP h
    refine ⟨hmem, ?_⟩
    intro he
    subst he
    exact not_mem_eraseP_nodup k' l hnd h
  · intro ⟨h1, h2⟩
    exact mem_eraseP_of_ne k k' h2 l h1

theorem eq_of_mem_nodup_slug (p : List Recipe)
    (h : (p.map Recipe.slug).Nodup) (q1 q2 : Recipe)
    (h1 : q1 ∈ p) (h2 : q2 ∈ p) (he : q1.slug = q2.slug) : q1 = q2 :=
  List.inj_on_of_nodup_map h h1 h2 he

theorem keyNodup_head (e : String × Recipe) (w : List (String × Recipe))
    (h : ((e :: w).map Prod.fst).Nodup) :
    ¬e.1 ∈ w.map Prod.fst ∧ (w.map Prod.fst).Nodup := by
  rw [List.map_cons, List.nodup_cons] at h
  exact h

theorem slugNodup_head (r : Recipe) (rs : List Recipe)
    (h : ((r :: rs).map Recipe.slug).Nodup) :
    ¬r.slug ∈ rs.map Recipe.slug ∧ (rs.map Recipe.slug).Nodup := by
  rw [List.map_cons, List.nodup_cons] at h
  exact h

theorem filter_step_erase (s : String) (c cn : (String × Recipe) → Bool) :
    ∀ (w : List (String × Recipe)),
      ((w.map Prod.fst).Nodup) →
      (∀ e ∈ w, ¬e.1 = s → cn e = c e) →
      (∀ e ∈ w, e.1 = s → cn e = false ∧ c e = true) →
      w.filter cn = (w.filter c).eraseP (fun e => e.1 == s) := by
  intro w
  induction w with
  | nil => intro _ _ _; rfl
  | cons e w ih =>
    intro hnd hcc hcs
    have hnd2 : (w.map Prod.fst).Nodup := (keyNodup_head e w hnd).2
    by_cases hes : e.1 = s
    · have hc := hcs e (List.mem_cons_self _ _) hes
      have hl : List.filter cn (e :: w) = List.filter cn w := by
        simp [List.filter_cons, hc.1]
      have hr : List.filter c (e :: w) = e :: List.filter c w := by
        simp [List.filter_cons, hc.2]
      rw [hl, hr, List.eraseP_cons, show (e.1 == s) = true from beq_iff_eq.2 hes]
      simp only [cond_true]
      have hkey : ¬s ∈ w.map Prod.fst := by
        have h7 := (keyNodup_head e w hnd).1
        rwa [hes] at h7
      refine List.filter_congr ?_
      intro x hx
      refine hcc x (List.mem_cons_of_mem _ hx) ?_
      intro hxs
      exact hkey (hxs ▸ List.mem_map_of_mem Prod.fst hx)
    · have hce := hcc e (List.mem_cons_self _ _) hes
      cases hc : c e with
      | true =>
        have hl : List.filter cn (e :: w) = e :: List.filter cn w := by
          simp [List.filter_cons, hce, hc]
        have hr : List.filter c (e :: w) = e :: List.filter c w := by
          simp [List.filter_cons, hc]
        rw [hl, hr, List.eraseP_cons, show (e.1 == s) = false from by simp [hes]]
        simp only [cond_false]
        rw [ih hnd2 (fun x hx => hcc x (List.mem_cons_of_mem _ hx))
          (fun x hx => hcs x (List.mem_cons_of_mem _ hx))]
      | false =>
        have hl : List.filter cn (e :: w) = List.filter cn w := by
          simp [List.filter_cons, hce, hc]
        have hr : List.filter c (e :: w) = List.filter c w := by
          simp [List.filter_cons, hc]
        rw [hl, hr]
        exact ih hnd2 (fun x hx => hcc x (List.mem_cons_of_mem _ hx))
          (fun x hx => hcs x (List.mem_cons_of_mem _ hx))

theorem orphanErase_chars :
    ∀ (w : List (String × Recipe)) (p : List Recipe),
      (p.map Recipe.slug).Nodup →
      ((w.map Prod.fst).Nodup) →
      (∀ e ∈ w, e.1 ∈ p.map Recipe.slug) →
      ((orphanErase w p).map Recipe.slug).Nodup ∧
      (∀ k, k ∈ (orphanErase w p).map Recipe.slug ↔
        (k ∈ p.map Recipe.slug ∧ ¬k ∈ w.map Prod.fst)) ∧
      (orphanErase w p).length + w.length = p.length := by
  intro w
  induction w with
  | nil =>
    intro p hp _ _
    refine ⟨hp, ?_, by simp [orphanErase]⟩
    intro k
    simp [orphanErase]
  | cons e w ih =>
    intro p hp hw hmem
    have hstep : orphanErase (e :: w) p =
        orphanErase w (p.eraseP (fun q => q.slug == e.1)) := rfl
    have hkeyerase : (p.eraseP (fun q => q.slug == e.1)).map Recipe.slug =
        (p.map Recipe.slug).eraseP (fun x => x == e.1) :=
      map_eraseP_comm Recipe.slug (fun x => x == e.1) p
    have hnd2 : ((p.eraseP (fun q => q.slug == e.1)).map Recipe.slug).Nodup := by
      rw [hkeyerase]
      exact hp.sublist (List.eraseP_sublist _)
    have hwnd : (w.map Prod.fst).Nodup := (keyNodup_head e w hw).2
    have hefresh : ¬e.1 ∈ w.map Prod.fst := (keyNodup_head e w hw).1
    have hmem2 : ∀ x ∈ w, x.1 ∈ (p.eraseP (fun q => q.slug == e.1)).map Recipe.slug := by
      intro x hx
      rw [hkeyerase, mem_eraseP_nodup_iff _ _ _ hp]
      refine ⟨hmem x (List.mem_cons_of_mem _ hx), ?_⟩
      intro hxe
      exact hefresh (hxe ▸ List.mem_map_of_mem Prod.fst hx)
    obtain ⟨ih1, ih2, ih3⟩ := ih _ hnd2 hwnd hmem2
    rw [hstep]
    refine ⟨ih1, ?_, ?_⟩
    · intro k
      rw [ih2 k, hkeyerase, mem_eraseP_nodup_iff _ _ _ hp]
      constructor
      · intro ⟨⟨h1, h2⟩, h3⟩
        refine ⟨h1, ?_⟩
        intro hk
        rw [List.map_cons] at hk
        rcases List.mem_cons.1 hk with h4 | h4
        · exact h2 h4
        · exact h3 h4
      · intro ⟨h1, h2⟩
        have hne : ¬k = e.1 := by
          intro hk
          exact h2 (by simp [hk])
        refine ⟨⟨h1, hne⟩, ?_⟩
        intro hk
        exact h2 (by simp [hk])
    · have hlen : (p.eraseP (fun q => q.slug == e.1)).length + 1 = p.length := by
        have hmem1 : e.1 ∈ p.map Recipe.slug := hmem e (List.mem_cons_self _ _)
        rcases List.mem_map.1 hmem1 with ⟨q, hq, hqs⟩
        have h5 := List.length_eraseP_of_mem hq (p := fun q2 => q2.slug == e.1)
          (by simp [hqs])
        have h6 := List.length_pos_of_mem hq
        omega
      simp only [List.length_cons]
      omega

theorem dictOfRecipes_fold :
    ∀ (rs : List Recipe) (m : List (String × Recipe)),
      (∀ r ∈ rs, ¬r.slug ∈ m.map Prod.fst) →
      ((rs.map Recipe.slug).Nodup) →
      rs.foldl (fun m r => dictInsert m r.slug r) m =
        m ++ rs.map (fun r => (r.slug, r)) := by
  intro rs
  induction rs with
  | nil => intro m _ _; simp
  | cons r rs ih =>
    intro m hfresh hnd
    have hany : m.any (fun e => e.1 == r.slug) = false := by
      rw [Bool.eq_false_iff]
      intro hany
      rcases List.any_eq_true.1 hany with ⟨e, he, hbeq⟩
      exact hfresh r (List.mem_cons_self _ _)
        ((eq_of_beq hbeq) ▸ List.mem_map_of_mem Prod.fst he)
    rw [List.foldl_cons]
    have hins : dictInsert m r.slug r = m ++ [(r.slug, r)] := by
      unfold dictInsert
      rw [hany]
      simp
    rw [hins, ih (m ++ [(r.slug, r)]) ?_ (slugNodup_head r rs hnd).2]
    · simp
    · intro x hx
      rw [List.map_append]
      intro hmem
      rcases List.mem_append.1 hmem with h2 | h2
      · exact hfresh x (List.mem_cons_of_mem _ hx) h2
      · have hxr : x.slug = r.slug := by simpa using h2
        have hr := (slugNodup_head r rs hnd).1
        exact hr (hxr ▸ List.mem_map_of_mem Recipe.slug hx)

/-- The untouched row fields of the row the rebuild inserts for a
stored identifier. -/
def insRowKey (cfg : StorageConfig) (store : DocStore) (tick : Nat)
    (s : String) : String × String × String × Nat :=
  match load_recipe cfg store s with
  | .ok d => (s, d.meta.source_url.getD "", d.filepath, tick)
  | .error _ => (s, "", "", tick)

theorem rowKey_updateExisting (r : Recipe) (d : LoadedDoc) (tick : Nat)
    (table : List String) :
    rowKey (updateExisting r d tick table).1 = rowKey r := by
  by_cases h : d.meta.tags.getD [] = [] <;> simp [updateExisting, rowKey, h]

theorem rowKey_mkNewRecipe (s : String) (d : LoadedDoc) (tick : Nat)
    (table : List String) :
    rowKey (mkNewRecipe s d tick table).1 =
      (s, d.meta.source_url.getD "", d.filepath, tick) := by
  by_cases h : d.meta.tags.getD [] = [] <;> simp [mkNewRecipe, rowKey, h]

/-- Loop invariant of the per-file pass of `rebuild_index`, relative to
the initial working map `w0` and the initial session rows `p0`: the
working map is `w0` minus the accounted-for entries, the untouched row
fields of the session are those of `p0` plus one tuple per inserted
identifier, the two counters count the processed loadable identifiers
split by whether their slug was in the initial map, and every
working-map row coincides with the session row of the same slug. -/
def RbInv (cfg : StorageConfig) (store : DocStore) (tick : Nat)
    (w0 : List (String × Recipe)) (p0 : List Recipe)
    (processed : List String) (acc : RbAcc) : Prop :=
  acc.working = w0.filter
    (fun e => !(decide (e.1 ∈ processed) && loadOk cfg store e.1)) ∧
  acc.pending.map rowKey = p0.map rowKey ++
    (processed.filter (fun s => loadOk cfg store s &&
      !(decide (s ∈ w0.map Prod.fst)))).map (insRowKey cfg store tick) ∧
  acc.indexed = (processed.filter (fun s => loadOk cfg store s &&
    !(decide (s ∈ w0.map Prod.fst)))).length ∧
  acc.updated = (processed.filter (fun s => loadOk cfg store s &&
    decide (s ∈ w0.map Prod.fst))).length ∧
  (∀ e ∈ acc.working, ∀ q ∈ acc.pending, q.slug = e.1 → q = e.2)

theorem rbStep_inv (cfg : StorageConfig) (store : DocStore) (tick : Nat)
    (committed : List String)
    (w0 : List (String × Recipe)) (p0 : List Recipe)
    (hw0nd : (w0.map Prod.fst).Nodup)
    (hw0pair : ∀ e ∈ w0, e.2.slug = e.1)
    (processed : List String) (acc : RbAcc) (s : String)
    (hs : ¬s ∈ processed)
    (hinv : RbInv cfg store tick w0 p0 processed acc) :
    RbInv cfg store tick w0 p0 (processed ++ [s])
      (rbStep cfg store tick committed acc s) := by
  obtain ⟨hw, hpk, hidx, hupd, hcoh⟩ := hinv
  cases hl : load_recipe cfg store s with
  | error err =>
    have hlo : loadOk cfg store s = false := by simp [loadOk, hl]
    have hcongr : ∀ e ∈ w0,
        (!(decide (e.1 ∈ processed ++ [s]) && loadOk cfg store e.1)) =
        (!(decide (e.1 ∈ processed) && loadOk cfg store e.1)) := by
      intro e he
      by_cases hes : e.1 = s
      · rw [hes, hlo]
        simp
      · simp [List.mem_append, hes]
    have hfs : (processed ++ [s]).filter (fun x => loadOk cfg store x &&
        !(decide (x ∈ w0.map Prod.fst))) =
        processed.filter (fun x => loadOk cfg store x &&
          !(decide (x ∈ w0.map Prod.fst))) := by
      rw [List.filter_append]
      simp [hlo]
    have hfs2 : (processed ++ [s]).filter (fun x => loadOk cfg store x &&
        decide (x ∈ w0.map Prod.fst)) =
        processed.filter (fun x => loadOk cfg store x &&
          decide (x ∈ w0.map Prod.fst)) := by
      rw [List.filter_append]
      simp [hlo]
    have hstep : rbStep cfg store tick committed acc s =
        { acc with errors := acc.errors + 1 } := by
      simp [rbStep, hl]
    rw [hstep]
    exact ⟨hw.trans (List.filter_congr hcongr).symm, hpk.trans (by rw [hfs]),
      hidx.trans (by rw [hfs]), hupd.trans (by rw [hfs2]), hcoh⟩
  | ok d =>
    have hlo : loadOk cfg store s = true := by simp [loadOk, hl]
    cases hf : acc.working.find? (fun e => e.1 == s) with
    | some e =>
      have he_mem : e ∈ acc.working := List.mem_of_find?_eq_some hf
      have hbeq := List.find?_some hf
      have he_key : e.1 = s := eq_of_beq hbeq
      have he_w0 : e ∈ w0 := by
        rw [hw] at he_mem
        exact List.mem_of_mem_filter he_mem
      have hsw0 : s ∈ w0.map Prod.fst := he_key ▸ List.mem_map_of_mem Prod.fst he_w0
      have hstep : rbStep cfg store tick committed acc s =
          { acc with
            pending := acc.pending.map (fun q =>
              if q.slug == s then (updateExisting e.2 d tick committed).1 else q)
            table := acc.table ++ createdTags (d.meta.tags.getD []) committed
            working := acc.working.eraseP (fun x => x.1 == s)
            updated := acc.updated + 1 } := by
        simp [rbStep, hl, hf]
      have hwnew : acc.working.eraseP (fun x => x.1 == s) =
          w0.filter (fun x =>
            !(decide (x.1 ∈ processed ++ [s]) && loadOk cfg store x.1)) := by
        rw [hw]
        refine (filter_step_erase s _ _ w0 hw0nd ?_ ?_).symm
        · intro x hx hxs
          by_cases hxp : x.1 ∈ processed
          · simp [List.mem_append, hxp, hxs]
          · simp [List.mem_append, hxp, hxs]
        · intro x hx hxs
          constructor
          · rw [hxs, hlo]
            simp
          · have hxsP : ¬x.1 ∈ processed := by rw [hxs]; exact hs
            simp [hxsP]
      rw [hstep]
      refine ⟨hwnew, ?_, ?_, ?_, ?_⟩
      · show (acc.pending.map _).map rowKey = _
        have hmapg : (acc.pending.map (fun q =>
            if q.slug == s then (updateExisting e.2 d tick committed).1 else q)).map
              rowKey = acc.pending.map rowKey := by
          rw [List.map_map]
          refine List.map_congr_left ?_
          intro q hq
          show rowKey (if q.slug == s
              then (updateExisting e.2 d tick committed).1 else q) =
            rowKey q
          by_cases hqs : (q.slug == s) = true
          · have hq2 : q = e.2 := hcoh e he_mem q hq (by rw [eq_of_beq hqs, he_key])
            rw [if_pos hqs, rowKey_updateExisting, ← hq2]
          · rw [if_neg (by simpa using hqs)]
        have hfs : (processed ++ [s]).filter (fun x => loadOk cfg store x &&
            !(decide (x ∈ w0.map Prod.fst))) =
            processed.filter (fun x => loadOk cfg store x &&
              !(decide (x ∈ w0.map Prod.fst))) := by
          rw [List.filter_append]
          simp [hsw0]
        rw [hmapg, hpk, hfs]
      · show acc.indexed = _
        have hfs : (processed ++ [s]).filter (fun x => loadOk cfg store x &&
            !(decide (x ∈ w0.map Prod.fst))) =
            processed.filter (fun x => loadOk cfg store x &&
              !(decide (x ∈ w0.map Prod.fst))) := by
          rw [List.filter_append]
          simp [hsw0]
        rw [hidx, hfs]
      · show acc.updated + 1 = _
        have hfs2 : (processed ++ [s]).filter (fun x => loadOk cfg store x &&
            decide (x ∈ w0.map Prod.fst)) =
            processed.filter (fun x => loadOk cfg store x &&
              decide (x ∈ w0.map Prod.fst)) ++ [s] := by
          rw [List.filter_append]
          simp [hsw0, hlo]
        rw [hupd, hfs2, List.length_append]
        rfl
      · intro e2 he2 q hq hqe
        have he2f : e2 ∈ w0.filter (fun x =>
            !(decide (x.1 ∈ processed ++ [s]) && loadOk cfg store x.1)) := by
          rw [← hwnew]
          exact he2
        have he2ne : ¬e2.1 = s := by
          intro hes
          have hc := List.of_mem_filter he2f
          rw [hes, hlo] at hc
          simp [List.mem_append] at hc
        have he2old : e2 ∈ acc.working := List.mem_of_mem_eraseP he2
        rcases List.mem_map.1 hq with ⟨q0, hq0, hq0e⟩
        by_cases hq0s : (q0.slug == s) = true
        · rw [← hq0e, if_pos hq0s] at hqe ⊢
          have : (updateExisting e.2 d tick committed).1.slug = e.2.slug := by
            by_cases ht : d.meta.tags.getD [] = [] <;> simp [updateExisting, ht]
          rw [this, hw0pair e he_w0, he_key] at hqe
          exact absurd hqe.symm he2ne
        · rw [← hq0e, if_neg (by simpa using hq0s)] at hqe ⊢
          exact hcoh e2 he2old q0 hq0 hqe
    | none =>
      have hsw : ¬s ∈ acc.working.map Prod.fst := by
        intro hmem
        rcases List.mem_map.1 hmem with ⟨e, he, hfst⟩
        have hsome : (acc.working.find? (fun x => x.1 == s)).isSome :=
          List.find?_isSome.2 ⟨e, he, by simp [hfst]⟩
        rw [hf] at hsome
        simp at hsome
      have hsw0 : ¬s ∈ w0.map Prod.fst := by
        intro hmem
        rcases List.mem_map.1 hmem with ⟨e, he, hfst⟩
        apply hsw
        rw [hw]
        refine List.mem_map.2 ⟨e, List.mem_filter.2 ⟨he, ?_⟩, hfst⟩
        rw [hfst]
        simp [hs]
      have hstep : rbStep cfg store tick committed acc s =
          { acc with
            pending := acc.pending ++ [(mkNewRecipe s d tick committed).1]
            table := acc.table ++ createdTags (d.meta.tags.getD []) committed
            indexed := acc.indexed + 1 } := by
        simp [rbStep, hl, hf]
      rw [hstep]
      have hslugnew : (mkNewRecipe s d tick committed).1.slug = s := by
        by_cases ht : d.meta.tags.getD [] = [] <;> simp [mkNewRecipe, ht]
      refine ⟨?_, ?_, ?_, ?_, ?_⟩
      · show acc.working = _
        rw [hw]
        refine (List.filter_congr ?_).symm
        intro x hx
        have hxs : ¬x.1 = s := by
          intro hxe
          exact hsw0 (hxe ▸ List.mem_map_of_mem Prod.fst hx)
        by_cases hxp : x.1 ∈ processed
        · simp [List.mem_append, hxp, hxs]
        · simp [List.mem_append, hxp, hxs]
      · show (acc.pending ++ _).map rowKey = _
        have hfs : (processed ++ [s]).filter (fun x => loadOk cfg store x &&
            !(decide (x ∈ w0.map Prod.fst))) =
            processed.filter (fun x => loadOk cfg store x &&
              !(decide (x ∈ w0.map Prod.fst))) ++ [s] := by
          rw [List.filter_append]
          simp [hsw0, hlo]
        rw [List.map_append, hpk, hfs, List.map_append, List.append_assoc]
        have : rowKey (mkNewRecipe s d tick committed).1 =
            insRowKey cfg store tick s := by
          rw [rowKey_mkNewRecipe]
          simp [insRowKey, hl]
        simp [this]
      · show acc.indexed + 1 = _
        have hfs : (processed ++ [s]).filter (fun x => loadOk cfg store x &&
            !(decide (x ∈ w0.map Prod.fst))) =
            processed.filter (fun x => loadOk cfg store x &&
              !(decide (x ∈ w0.map Prod.fst))) ++ [s] := by
          rw [List.filter_append]
          simp [hsw0, hlo]
        rw [hidx, hfs, List.length_append]
        rfl
      · show acc.updated = _
        have hfs2 : (processed ++ [s]).filter (fun x => loadOk cfg store x &&
            decide (x ∈ w0.map Prod.fst)) =
            processed.filter (fun x => loadOk cfg store x &&
              decide (x ∈ w0.map Prod.fst)) := by
          rw [List.filter_append]
          simp [hsw0]
        rw [hupd, hfs2]
      · intro e2 he2 q hq hqe
        rcases List.mem_append.1 hq with hq1 | hq1
        · exact hcoh e2 he2 q hq1 hqe
        · have hqn : q = (mkNewRecipe s d tick committed).1 := by simpa using hq1
          rw [hqn, hslugnew] at hqe
          exact absurd (hqe ▸ List.mem_map_of_mem Prod.fst he2) hsw

theorem dictOfRecipes_eq (rs : List Recipe)
    (h : (rs.map Recipe.slug).Nodup) :
    dictOfRecipes rs = rs.map (fun r => (r.slug, r)) := by
  have := dictOfRecipes_fold rs [] (by simp) h
  simpa [dictOfRecipes] using this

theorem rbFold_inv (cfg : StorageConfig) (store : DocStore) (tick : Nat)
    (committed : List String)
    (w0 : List (String × Recipe)) (p0 : List Recipe)
    (hw0nd : (w0.map Prod.fst).Nodup)
    (hw0pair : ∀ e ∈ w0, e.2.slug = e.1) :
    ∀ (rest processed : List String) (acc : RbAcc),
      (processed ++ rest).Nodup →
      RbInv cfg store tick w0 p0 processed acc →
      RbInv cfg store tick w0 p0 (processed ++ rest)
        (rest.foldl (rbStep cfg store tick committed) acc) := by
  intro rest
  induction rest with
  | nil =>
    intro processed acc _ h
    simpa using h
  | cons s rest ih =>
    intro processed acc hnd hinv
    have hs : ¬s ∈ processed := by
      rcases List.nodup_append.1 hnd with ⟨_, _, hdisj⟩
      intro hmem
      exact hdisj hmem (List.mem_cons_self s rest)
    have hinv2 := rbStep_inv cfg store tick committed w0 p0 hw0nd hw0pair
      processed acc s hs hinv
    have hnd2 : ((processed ++ [s]) ++ rest).Nodup := by
      rw [List.append_assoc, List.singleton_append]
      exact hnd
    have hres := ih (processed ++ [s]) (rbStep cfg store tick committed acc s)
      hnd2 hinv2
    rw [List.append_assoc, List.singleton_append] at hres
    rw [List.foldl_cons]
    exact hres

theorem rbInv_init (cfg : StorageConfig) (store : DocStore) (tick : Nat)
    (st : IndexState)
    (hnd : (st.recipes.map Recipe.slug).Nodup)
    (hsz : st.recipes.length ≤ 10000) :
    ∃ w0 : List (String × Recipe),
      dictOfRecipes (get_all_recipes 10000 0 st) = w0 ∧
      (w0.map Prod.fst).Nodup ∧
      (∀ e ∈ w0, e.2.slug = e.1) ∧
      List.Perm (w0.map Prod.fst) (st.recipes.map Recipe.slug) ∧
      RbInv cfg store tick w0 st.recipes [] (rbAcc0 st) := by
  have hperm : List.Perm
      (st.recipes.insertionSort (fun a b => b.created_at ≤ a.created_at))
      st.recipes := List.perm_insertionSort _ _
  have hae : get_all_recipes 10000 0 st =
      st.recipes.insertionSort (fun a b => b.created_at ≤ a.created_at) := by
    unfold get_all_recipes
    rw [List.drop_zero]
    exact List.take_of_length_le (by rw [hperm.length_eq]; exact hsz)
  have hsortednd : ((st.recipes.insertionSort
      (fun a b => b.created_at ≤ a.created_at)).map Recipe.slug).Nodup :=
    ((hperm.map Recipe.slug).nodup_iff).2 hnd
  have hdict := dictOfRecipes_eq _ hsortednd
  have hkeys : ((st.recipes.insertionSort
        (fun a b => b.created_at ≤ a.created_at)).map
      (fun r => (r.slug, r))).map Prod.fst =
      (st.recipes.insertionSort (fun a b => b.created_at ≤ a.created_at)).map
        Recipe.slug := by
    rw [List.map_map]
    rfl
  refine ⟨_, by rw [hae, hdict], ?_, ?_, ?_, ?_⟩
  · rw [hkeys]
    exact hsortednd
  · intro e he
    rcases List.mem_map.1 he with ⟨r, _, hre⟩
    rw [← hre]
  · rw [hkeys]
    exact hperm.map Recipe.slug
  · refine ⟨?_, by simp [rbAcc0], by simp [rbAcc0], by simp [rbAcc0], ?_⟩
    · show dictOfRecipes (get_all_recipes 10000 0 st) = _
      rw [hae, hdict]
      refine Eq.symm (List.filter_eq_self.2 ?_)
      intro e he
      simp
    · intro e he q hq hqe
      show q = e.2
      have he2 : e ∈ (st.recipes.insertionSort
          (fun a b => b.created_at ≤ a.created_at)).map (fun r => (r.slug, r)) := by
        have hdef : (rbAcc0 st).working = dictOfRecipes (get_all_recipes 10000 0 st) := rfl
        rw [hdef, hae, hdict] at he
        exact he
      rcases List.mem_map.1 he2 with ⟨r, hr, hre⟩
      have hrst : r ∈ st.recipes := hperm.subset hr
      have hq2 : q ∈ st.recipes := hq
      have : q = r := eq_of_mem_nodup_slug st.recipes hnd q r hq2 hrst
        (by rw [hqe, ← hre])
      rw [this, ← hre]

theorem rbPass_inv (cfg : StorageConfig) (store : DocStore) (tick : Nat)
    (st : IndexState)
    (hnd : (st.recipes.map Recipe.slug).Nodup)
    (hsz : st.recipes.length ≤ 10000)
    (hkeys : (list_recipes store).Nodup) :
    ∃ w0 : List (String × Recipe),
      (w0.map Prod.fst).Nodup ∧
      (∀ e ∈ w0, e.2.slug = e.1) ∧
      List.Perm (w0.map Prod.fst) (st.recipes.map Recipe.slug) ∧
      RbInv cfg store tick w0 st.recipes (list_recipes store)
        (rbPass cfg store tick st) := by
  obtain ⟨w0, hdict, hw0nd, hw0pair, hperm0, hinit⟩ :=
    rbInv_init cfg store tick st hnd hsz
  refine ⟨w0, hw0nd, hw0pair, hperm0, ?_⟩
  have := rbFold_inv cfg store tick st.tagNames w0 st.recipes hw0nd hw0pair
    (list_recipes store) [] (rbAcc0 st) (by simpa using hkeys) hinit
  simpa [rbPass] using this

theorem map_filter_comm (f : α → β) (p : β → Bool) :
    ∀ (l : List α), (l.filter (fun x => p (f x))).map f = (l.map f).filter p := by
  intro l
  induction l with
  | nil => rfl
  | cons a l ih =>
    rw [List.filter_cons, List.map_cons, List.filter_cons]
    cases h : p (f a) with
    | true => simp [h, ih]
    | false => simp [h, ih]

theorem length_eq_of_nodup_mem (l1 l2 : List String)
    (h1 : l1.Nodup) (h2 : l2.Nodup) (hm : ∀ x, x ∈ l1 ↔ x ∈ l2) :
    l1.length = l2.length := by
  rw [← List.toFinset_card_of_nodup h1, ← List.toFinset_card_of_nodup h2]
  congr 1
  ext x
  rw [List.mem_toFinset, List.mem_toFinset]
  exact hm x

theorem length_le_of_nodup_subset (l1 l2 : List String)
    (h1 : l1.Nodup) (hsub : ∀ x ∈ l1, x ∈ l2) :
    l1.length ≤ l2.length := by
  rw [← List.toFinset_card_of_nodup h1]
  refine le_trans (Finset.card_le_card ?_) (List.toFinset_card_le l2)
  intro x hx
  rw [List.mem_toFinset] at hx ⊢
  exact hsub x hx

theorem insRowKey_fst (cfg : StorageConfig) (store : DocStore) (tick : Nat)
    (s : String) : (insRowKey cfg store tick s).1 = s := by
  cases h : load_recipe cfg store s <;> simp [insRowKey, h]

theorem map_slug_eq_of_map_rowKey (l1 l2 : List Recipe)
    (h : l1.map rowKey = l2.map rowKey) :
    l1.map Recipe.slug = l2.map Recipe.slug := by
  have e1 : l1.map Recipe.slug = (l1.map rowKey).map (fun t => t.1) := by
    rw [List.map_map]
    rfl
  have e2 : l2.map Recipe.slug = (l2.map rowKey).map (fun t => t.1) := by
    rw [List.map_map]
    rfl
  rw [e1, e2, h]

theorem commitAccepts_congr_rowKey (l1 l2 : List Recipe) (tags : List String)
    (h : l1.map rowKey = l2.map rowKey) :
    commitAccepts l1 tags = commitAccepts l2 tags := by
  have hs := map_slug_eq_of_map_rowKey l1 l2 h
  have hu : l1.map Recipe.source_url = l2.map Recipe.source_url := by
    have e1 : l1.map Recipe.source_url = (l1.map rowKey).map (fun t => t.2.1) := by
      rw [List.map_map]
      rfl
    have e2 : l2.map Recipe.source_url = (l2.map rowKey).map (fun t => t.2.1) := by
      rw [List.map_map]
      rfl
    rw [e1, e2, h]
  have hf : l1.map Recipe.filepath = l2.map Recipe.filepath := by
    have e1 : l1.map Recipe.filepath = (l1.map rowKey).map (fun t => t.2.2.1) := by
      rw [List.map_map]
      rfl
    have e2 : l2.map Recipe.filepath = (l2.map rowKey).map (fun t => t.2.2.1) := by
      rw [List.map_map]
      rfl
    rw [e1, e2, h]
  unfold commitAccepts
  rw [hs, hu, hf]

theorem rebuild_ok_inversion (cfg : StorageConfig) (store : DocStore)
    (tick : Nat) (st st2 : IndexState) (stats : RebuildStats)
    (h : rebuild_index cfg store tick true st = (st2, .ok stats)) :
    st2 = ⟨orphanErase (rbPass cfg store tick st).working
        (rbPass cfg store tick st).pending, (rbPass cfg store tick st).table⟩ ∧
    commitAccepts (orphanErase (rbPass cfg store tick st).working
        (rbPass cfg store tick st).pending)
      (rbPass cfg store tick st).table = true ∧
    stats = ⟨(list_recipes store).length, (rbPass cfg store tick st).indexed,
      (rbPass cfg store tick st).updated, (rbPass cfg store tick st).errors,
      (rbPass cfg store tick st).working.length⟩ := by
  unfold rebuild_index at h
  simp only [Bool.true_and] at h
  split at h
  case isTrue hc =>
    rw [Prod.mk.injEq] at h
    obtain ⟨h1, h2⟩ := h
    rw [Except.ok.injEq] at h2
    exact ⟨h1.symm, hc, h2.symm⟩
  case isFalse => exact absurd h (by simp)

theorem rebuild_ok_intro (cfg : StorageConfig) (store : DocStore)
    (tick : Nat) (st : IndexState)
    (hc : commitAccepts (orphanErase (rbPass cfg store tick st).working
        (rbPass cfg store tick st).pending)
      (rbPass cfg store tick st).table = true) :
    rebuild_index cfg store tick true st =
      (⟨orphanErase (rbPass cfg store tick st).working
          (rbPass cfg store tick st).pending, (rbPass cfg store tick st).table⟩,
       .ok ⟨(list_recipes store).length, (rbPass cfg store tick st).indexed,
         (rbPass cfg store tick st).updated, (rbPass cfg store tick st).errors,
         (rbPass cfg store tick st).working.length⟩) := by
  unfold rebuild_index
  simp only [Bool.true_and]
  rw [if_pos hc]

theorem map_insRowKey_fst (cfg : StorageConfig) (store : DocStore)
    (tick : Nat) :
    ∀ l : List String, (l.map (insRowKey cfg store tick)).map (fun t => t.1) = l := by
  intro l
  induction l with
  | nil => rfl
  | cons s l ih => rw [List.map_cons, List.map_cons, insRowKey_fst, ih]

/-- Characterization of a successful rebuild pass over a well-formed
index: the surviving rows are exactly the loadable stored identifiers,
the orphan count is the number of index rows without a loadable backing
document, and the insert/update counters split the loadable identifiers
by whether their slug was already indexed. -/
theorem rebuild_pass_chars (cfg : StorageConfig) (store : DocStore)
    (tick : Nat) (st : IndexState)
    (hnd : (st.recipes.map Recipe.slug).Nodup)
    (hsz : st.recipes.length ≤ 10000)
    (hkeys : (list_recipes store).Nodup) :
    ((orphanErase (rbPass cfg store tick st).working
        (rbPass cfg store tick st).pending).map Recipe.slug).Nodup ∧
    (∀ k, k ∈ (orphanErase (rbPass cfg store tick st).working
        (rbPass cfg store tick st).pending).map Recipe.slug ↔
      (k ∈ list_recipes store ∧ loadOk cfg store k = true)) ∧
    (rbPass cfg store tick st).working.length =
      (st.recipes.filter (fun r =>
        !(decide (r.slug ∈ list_recipes store) &&
          loadOk cfg store r.slug))).length ∧
    (rbPass cfg store tick st).indexed =
      ((list_recipes store).filter (fun s => loadOk cfg store s &&
        !(decide (s ∈ st.recipes.map Recipe.slug)))).length ∧
    (rbPass cfg store tick st).updated =
      ((list_recipes store).filter (fun s => loadOk cfg store s &&
        decide (s ∈ st.recipes.map Recipe.slug))).length ∧
    (orphanErase (rbPass cfg store tick st).working
      (rbPass cfg store tick st).pending).length ≤ store.length := by
  obtain ⟨w0, hw0nd, hw0pair, hperm0, hinv⟩ :=
    rbPass_inv cfg store tick st hnd hsz hkeys
  obtain ⟨hw, hpk, hidx, hupd, hcoh⟩ := hinv
  have hWfst : (rbPass cfg store tick st).working.map Prod.fst =
      (w0.map Prod.fst).filter
        (fun k => !(decide (k ∈ list_recipes store) && loadOk cfg store k)) := by
    rw [hw]
    exact map_filter_comm Prod.fst
      (fun k => !(decide (k ∈ list_recipes store) && loadOk cfg store k)) w0
  have hWmem : ∀ k, k ∈ (rbPass cfg store tick st).working.map Prod.fst ↔
      (k ∈ st.recipes.map Recipe.slug ∧
        ¬(k ∈ list_recipes store ∧ loadOk cfg store k = true)) := by
    intro k
    have hm : k ∈ w0.map Prod.fst ↔ k ∈ st.recipes.map Recipe.slug :=
      hperm0.mem_iff
    rw [hWfst, List.mem_filter, hm]
    constructor
    · intro ⟨h1, h2⟩
      refine ⟨h1, ?_⟩
      intro ⟨h3, h4⟩
      simp [h3, h4] at h2
    · intro ⟨h1, h2⟩
      refine ⟨h1, ?_⟩
      by_cases h3 : k ∈ list_recipes store
      · have h4 : loadOk cfg store k = false := by
          cases h5 : loadOk cfg store k
          · rfl
          · exact absurd ⟨h3, h5⟩ h2
        simp [h3, h4]
      · simp [h3]
  have hq : ∀ s, (loadOk cfg store s && !(decide (s ∈ w0.map Prod.fst))) =
      (loadOk cfg store s && !(decide (s ∈ st.recipes.map Recipe.slug))) := by
    intro s
    have hm : s ∈ w0.map Prod.fst ↔ s ∈ st.recipes.map Recipe.slug :=
      hperm0.mem_iff
    rw [decide_eq_decide.2 hm]
  have hidx2 : (rbPass cfg store tick st).indexed =
      ((list_recipes store).filter (fun s => loadOk cfg store s &&
        !(decide (s ∈ st.recipes.map Recipe.slug)))).length := by
    rw [hidx]
    congr 1
    exact List.filter_congr (fun s _ => hq s)
  have hupd2 : (rbPass cfg store tick st).updated =
      ((list_recipes store).filter (fun s => loadOk cfg store s &&
        decide (s ∈ st.recipes.map Recipe.slug))).length := by
    rw [hupd]
    congr 1
    refine List.filter_congr (fun s _ => ?_)
    have hm : s ∈ w0.map Prod.fst ↔ s ∈ st.recipes.map Recipe.slug :=
      hperm0.mem_iff
    rw [decide_eq_decide.2 hm]
  have hPslug : (rbPass cfg store tick st).pending.map Recipe.slug =
      st.recipes.map Recipe.slug ++ (list_recipes store).filter
        (fun s => loadOk cfg store s && !(decide (s ∈ w0.map Prod.fst))) := by
    have h1 : (rbPass cfg store tick st).pending.map Recipe.slug =
        ((rbPass cfg store tick st).pending.map rowKey).map (fun t => t.1) := by
      rw [List.map_map]
      rfl
    have h2 : st.recipes.map Recipe.slug =
        (st.recipes.map rowKey).map (fun t => t.1) := by
      rw [List.map_map]
      rfl
    rw [h1, hpk, List.map_append, ← h2, map_insRowKey_fst]
  have hInsNd : ((list_recipes store).filter
      (fun s => loadOk cfg store s && !(decide (s ∈ w0.map Prod.fst)))).Nodup :=
    hkeys.sublist (List.filter_sublist _)
  have hDisj : ∀ k ∈ st.recipes.map Recipe.slug,
      ¬k ∈ (list_recipes store).filter
        (fun s => loadOk cfg store s && !(decide (s ∈ w0.map Prod.fst))) := by
    intro k hk hmem
    have h5 := List.mem_filter.1 hmem
    have h6 := h5.2
    rw [Bool.and_eq_true] at h6
    have h7 : ¬k ∈ w0.map Prod.fst := by
      have h8 := h6.2
      rw [Bool.not_eq_true'] at h8
      exact of_decide_eq_false h8
    exact h7 (hperm0.mem_iff.2 hk)
  have hPnd : ((rbPass cfg store tick st).pending.map Recipe.slug).Nodup := by
    rw [hPslug, List.nodup_append]
    exact ⟨hnd, hInsNd, hDisj⟩
  have hWnd : ((rbPass cfg store tick st).working.map Prod.fst).Nodup := by
    rw [hWfst]
    exact hw0nd.sublist (List.filter_sublist _)
  have hWsub : ∀ e ∈ (rbPass cfg store tick st).working,
      e.1 ∈ (rbPass cfg store tick st).pending.map Recipe.slug := by
    intro e he
    rw [hw] at he
    have h1 : e ∈ w0 := List.mem_of_mem_filter he
    have h2 : e.1 ∈ w0.map Prod.fst := List.mem_map_of_mem Prod.fst h1
    have h3 : e.1 ∈ st.recipes.map Recipe.slug := hperm0.mem_iff.1 h2
    rw [hPslug]
    exact List.mem_append.2 (Or.inl h3)
  obtain ⟨hBnd, hBmemRaw, hBlen⟩ := orphanErase_chars
    (rbPass cfg store tick st).working (rbPass cfg store tick st).pending
    hPnd hWnd hWsub
  have hBmem : ∀ k, k ∈ (orphanErase (rbPass cfg store tick st).working
      (rbPass cfg store tick st).pending).map Recipe.slug ↔
      (k ∈ list_recipes store ∧ loadOk cfg store k = true) := by
    intro k
    rw [hBmemRaw k, hPslug]
    constructor
    · intro ⟨h1, h2⟩
      rcases List.mem_append.1 h1 with h3 | h3
      · by_contra h4
        exact h2 ((hWmem k).2 ⟨h3, h4⟩)
      · have h5 := List.mem_filter.1 h3
        refine ⟨h5.1, ?_⟩
        have h6 := h5.2
        rw [Bool.and_eq_true] at h6
        exact h6.1
    · intro ⟨h1, h2⟩
      have hnw : ¬k ∈ (rbPass cfg store tick st).working.map Prod.fst := by
        intro h3
        exact ((hWmem k).1 h3).2 ⟨h1, h2⟩
      by_cases h3 : k ∈ st.recipes.map Recipe.slug
      · exact ⟨List.mem_append.2 (Or.inl h3), hnw⟩
      · refine ⟨List.mem_append.2 (Or.inr ?_), hnw⟩
        rw [List.mem_filter]
        refine ⟨h1, ?_⟩
        have h4 : ¬k ∈ w0.map Prod.fst := fun h5 => h3 (hperm0.mem_iff.1 h5)
        simp [h2, h4]
  have hOrph : (rbPass cfg store tick st).working.length =
      (st.recipes.filter (fun r =>
        !(decide (r.slug ∈ list_recipes store) &&
          loadOk cfg store r.slug))).length := by
    have h1 : (rbPass cfg store tick st).working.length =
        ((rbPass cfg store tick st).working.map Prod.fst).length :=
      (List.length_map _ _).symm
    have h2 := (hperm0.filter
      (fun k => !(decide (k ∈ list_recipes store) && loadOk cfg store k))).length_eq
    have h3 : ((st.recipes.filter (fun r =>
        !(decide (r.slug ∈ list_recipes store) &&
          loadOk cfg store r.slug))).map Recipe.slug) =
        (st.recipes.map Recipe.slug).filter
          (fun k => !(decide (k ∈ list_recipes store) && loadOk cfg store k)) :=
      map_filter_comm Recipe.slug
        (fun k => !(decide (k ∈ list_recipes store) && loadOk cfg store k))
        st.recipes
    rw [h1, hWfst, h2, ← h3, List.length_map]
  have hBle : (orphanErase (rbPass cfg store tick st).working
      (rbPass cfg store tick st).pending).length ≤ store.length := by
    have h1 : ((orphanErase (rbPass cfg store tick st).working
        (rbPass cfg store tick st).pending).map Recipe.slug).length ≤
        (list_recipes store).length :=
      length_le_of_nodup_subset _ _ hBnd (fun k hk => ((hBmem k).1 hk).1)
    rw [List.length_map] at h1
    have h2 : (list_recipes store).length = store.length := by
      unfold list_recipes
      rw [List.length_map]
    rw [h2] at h1
    exact h1
  exact ⟨hBnd, hBmem, hOrph, hidx2, hupd2, hBle⟩

/-- C4: after a successful rebuild over a well-formed index of at most
10000 rows and a store with distinct file names, every index record
whose slug has no backing document in the document store has been
deleted, and the returned orphaned statistic counts the index records
without a loadable backing document (a record whose slug is absent from
the store, but also one whose document fails to load, e.g. by exceeding
the size ceiling). -/
theorem rebuild_orphan_removal (cfg : StorageConfig) (store : DocStore)
    (tick : Nat) (st st2 : IndexState) (stats : RebuildStats)
    (hwf : WF st)
    (hsz : st.recipes.length ≤ 10000)
    (hkeys : (list_recipes store).Nodup)
    (h : rebuild_index cfg store tick true st = (st2, .ok stats)) :
    (∀ r ∈ st.recipes, ¬r.slug ∈ list_recipes store →
      ¬r.slug ∈ st2.recipes.map Recipe.slug) ∧
    stats.orphaned = (st.recipes.filter (fun r =>
      !(decide (r.slug ∈ list_recipes store) &&
        loadOk cfg store r.slug))).length := by
  obtain ⟨hst2, hca, hstats⟩ := rebuild_ok_inversion cfg store tick st st2 stats h
  obtain ⟨hBnd, hBmem, hOrph, hidx, hupd, hBle⟩ :=
    rebuild_pass_chars cfg store tick st hwf.1 hsz hkeys
  constructor
  · intro r hr hnotin hmem
    rw [hst2] at hmem
    exact hnotin ((hBmem r.slug).1 hmem).1
  · rw [hstats]
    exact hOrph

/-- C4 witness fixtures: an index holding one backed and one unbacked
record, and a store holding the single backing document. -/
def c4doc : MDFile :=
  { meta := { title := some "T" }
    content := "x"
    size := 1 }

def c4recA : Recipe :=
  { title := "A"
    slug := "a"
    filepath := "/r/a.md"
    source_url := "u1"
    description := ""
    servings := ""
    prep_time := none
    cook_time := none
    total_time := none
    tags := []
    created_at := 0
    updated_at := 0 }

def c4recB : Recipe :=
  { title := "B"
    slug := "b"
    filepath := "/r/b.md"
    source_url := "u2"
    description := ""
    servings := ""
    prep_time := none
    cook_time := none
    total_time := none
    tags := []
    created_at := 1
    updated_at := 1 }

def c4st : IndexState := ⟨[c4recA, c4recB], []⟩

def c4store : DocStore := [("a", c4doc)]

/-- C4 witness: on the concrete fixtures the unbacked record is removed
by the rebuild and the orphan count is one. -/
theorem rebuild_orphan_removal_witness :
    (∀ r ∈ c4st.recipes, ¬r.slug ∈ list_recipes c4store →
      ¬r.slug ∈ (rebuild_index ⟨"/r", 100⟩ c4store 7 true
        c4st).1.recipes.map Recipe.slug) ∧
    (⟨1, 0, 1, 0, 1⟩ : RebuildStats).orphaned =
      (c4st.recipes.filter (fun r =>
        !(decide (r.slug ∈ list_recipes c4store) &&
          loadOk ⟨"/r", 100⟩ c4store r.slug))).length :=
  rebuild_orphan_removal ⟨"/r", 100⟩ c4store 7 c4st _ ⟨1, 0, 1, 0, 1⟩
    (by decide) (by decide) (by decide) (by decide)

/-- C4 counterexample fixtures: one index record whose backing document
exists but exceeds the size ceiling of 10 characters. -/
def c4xdoc : MDFile :=
  { meta := { title := some "T" }
    content := "aaaaaaaaaaa"
    size := 11 }

def c4xrec : Recipe :=
  { title := "A"
    slug := "a"
    filepath := "/r/a.md"
    source_url := "u1"
    description := ""
    servings := ""
    prep_time := none
    cook_time := none
    total_time := none
    tags := []
    created_at := 0
    updated_at := 0 }

/-- C4 counterexample: with a single index record whose backing document
is present but oversized, the rebuild succeeds reporting one orphan and
deletes the record, although zero index records lack a backing document
in the store -- so the orphaned statistic does not equal the number of
records without a backing document. -/
theorem rebuild_orphan_removal_counterexample :
    (rebuild_index ⟨"/r", 10⟩ [("a", c4xdoc)] 0 true ⟨[c4xrec], []⟩).2 =
      .ok ⟨1, 0, 0, 1, 1⟩ ∧
    (rebuild_index ⟨"/r", 10⟩ [("a", c4xdoc)] 0 true
      ⟨[c4xrec], []⟩).1.recipes = [] ∧
    (([c4xrec] : List Recipe).filter (fun r =>
      !(decide (r.slug ∈ list_recipes [("a", c4xdoc)])))).length = 0 := by
  decide

theorem rbStep_table (cfg : StorageConfig) (store : DocStore) (tick : Nat)
    (committed : List String) (acc : RbAcc) (s : String) :
    (rbStep cfg store tick committed acc s).table =
      acc.table ++ createdTags (docTagNames cfg store s) committed := by
  cases hl : load_recipe cfg store s with
  | error e =>
    simp [rbStep, docTagNames, hl, createdTags_nil]
  | ok d =>
    cases hf : acc.working.find? (fun e => e.1 == s) with
    | some e => simp [rbStep, docTagNames, hl, hf]
    | none => simp [rbStep, docTagNames, hl, hf]

theorem rbFold_table_grow (cfg : StorageConfig) (store : DocStore)
    (tick : Nat) (committed : List String) :
    ∀ (slugs : List String) (acc : RbAcc) (n : String),
      n ∈ acc.table →
      n ∈ (slugs.foldl (rbStep cfg store tick committed) acc).table := by
  intro slugs
  induction slugs with
  | nil => intro acc n h; exact h
  | cons s slugs ih =>
    intro acc n h
    rw [List.foldl_cons]
    refine ih _ n ?_
    rw [rbStep_table]
    exact List.mem_append_left _ h

theorem rbFold_table (cfg : StorageConfig) (store : DocStore) (tick : Nat)
    (committed : List String) :
    ∀ (slugs : List String) (acc : RbAcc),
      (∀ s ∈ slugs, createdTags (docTagNames cfg store s) committed = []) →
      (slugs.foldl (rbStep cfg store tick committed) acc).table = acc.table := by
  intro slugs
  induction slugs with
  | nil => intro acc _; rfl
  | cons s slugs ih =>
    intro acc h
    rw [List.foldl_cons]
    rw [ih _ (fun x hx => h x (List.mem_cons_of_mem _ hx))]
    rw [rbStep_table, h s (List.mem_cons_self _ _), List.append_nil]

theorem rbFold_table_mem (cfg : StorageConfig) (store : DocStore)
    (tick : Nat) (committed : List String) :
    ∀ (slugs : List String) (acc : RbAcc) (s : String), s ∈ slugs →
      ∀ n ∈ createdTags (docTagNames cfg store s) committed,
        n ∈ (slugs.foldl (rbStep cfg store tick committed) acc).table := by
  intro slugs
  induction slugs with
  | nil =>
    intro acc s hs
    simp at hs
  | cons s0 slugs ih =>
    intro acc s hs n hn
    rw [List.foldl_cons]
    rcases List.mem_cons.1 hs with h | h
    · subst h
      refine rbFold_table_grow cfg store tick committed slugs _ n ?_
      rw [rbStep_table]
      exact List.mem_append_right _ hn
    · exact ih (rbStep cfg store tick committed acc s0) s h n hn

/-- C1 (amended): rerunning the rebuild on an unchanged store reports
zero inserts and zero orphans, but the updated counter equals the
number of loadable stored documents (the loop counts every matched
document as an update), with one error per unloadable document. -/
theorem rebuild_second_run (cfg : StorageConfig) (store : DocStore)
    (tick1 tick2 : Nat) (st st1 : IndexState) (stats1 : RebuildStats)
    (hwf : WF st)
    (hsz : st.recipes.length ≤ 10000)
    (hssz : store.length ≤ 10000)
    (hkeys : (list_recipes store).Nodup)
    (h1 : rebuild_index cfg store tick1 true st = (st1, .ok stats1)) :
    ∃ st2 stats2, rebuild_index cfg store tick2 true st1 = (st2, .ok stats2) ∧
      stats2.indexed = 0 ∧
      stats2.orphaned = 0 ∧
      stats2.updated = ((list_recipes store).filter
        (fun s => loadOk cfg store s)).length ∧
      stats2.errors = ((list_recipes store).filter
        (fun s => !(loadOk cfg store s))).length ∧
      stats2.total_files = (list_recipes store).length := by
  obtain ⟨hst1, hca, hstats1⟩ := rebuild_ok_inversion cfg store tick1 st st1 stats1 h1
  obtain ⟨hBnd, hBmem, hOrph1, hIdx1, hUpd1, hBle⟩ :=
    rebuild_pass_chars cfg store tick1 st hwf.1 hsz hkeys
  have hs1r : st1.recipes = orphanErase (rbPass cfg store tick1 st).working
      (rbPass cfg store tick1 st).pending := by
    rw [hst1]
  have hnd1 : (st1.recipes.map Recipe.slug).Nodup := by
    rw [hs1r]
    exact hBnd
  have hsz1 : st1.recipes.length ≤ 10000 := by
    rw [hs1r]
    exact le_trans hBle hssz
  have hmem1 : ∀ k, k ∈ st1.recipes.map Recipe.slug ↔
      (k ∈ list_recipes store ∧ loadOk cfg store k = true) := by
    intro k
    rw [hs1r]
    exact hBmem k
  have hs1t : st1.tagNames = (rbPass cfg store tick1 st).table := by
    rw [hst1]
  have hca1 : commitAccepts st1.recipes st1.tagNames = true := by
    rw [hs1r, hs1t]
    exact hca
  have hsub : ∀ s ∈ list_recipes store,
      ∀ n ∈ cleanedTagNames (docTagNames cfg store s), n ∈ st1.tagNames := by
    intro s hs n hn
    rw [hs1t]
    rcases mem_table_or_created (docTagNames cfg store s) st.tagNames n hn with
      h | h
    · exact rbFold_table_grow cfg store tick1 st.tagNames (list_recipes store)
        (rbAcc0 st) n (show n ∈ (rbAcc0 st).table from h)
    · exact rbFold_table_mem cfg store tick1 st.tagNames (list_recipes store)
        (rbAcc0 st) s hs n h
  have hnil : ∀ s ∈ list_recipes store,
      createdTags (docTagNames cfg store s) st1.tagNames = [] := by
    intro s hs
    exact createdTags_eq_nil _ _ (fun n hn => hsub s hs n hn)
  have htab2 : (rbPass cfg store tick2 st1).table = st1.tagNames := by
    exact rbFold_table cfg store tick2 st1.tagNames (list_recipes store)
      (rbAcc0 st1) hnil
  obtain ⟨w0, hw0nd, hw0pair, hperm0, hinv⟩ :=
    rbPass_inv cfg store tick2 st1 hnd1 hsz1 hkeys
  obtain ⟨hw, hpk, hidx, hupd, hcoh⟩ := hinv
  have hw0mem : ∀ k, k ∈ w0.map Prod.fst ↔
      (k ∈ list_recipes store ∧ loadOk cfg store k = true) := by
    intro k
    have hm : k ∈ w0.map Prod.fst ↔ k ∈ st1.recipes.map Recipe.slug :=
      hperm0.mem_iff
    rw [hm]
    exact hmem1 k
  have hInsNil : (list_recipes store).filter
      (fun s => loadOk cfg store s && !(decide (s ∈ w0.map Prod.fst))) = [] := by
    rw [List.filter_eq_nil_iff]
    intro s hs
    cases hok : loadOk cfg store s with
    | false => simp [hok]
    | true =>
      have h2 : s ∈ w0.map Prod.fst := (hw0mem s).2 ⟨hs, hok⟩
      simp [hok, h2]
  have hidx0 : (rbPass cfg store tick2 st1).indexed = 0 := by
    rw [hidx, hInsNil]
    rfl
  have hupd2 : (rbPass cfg store tick2 st1).updated =
      ((list_recipes store).filter (fun s => loadOk cfg store s)).length := by
    rw [hupd]
    congr 1
    refine List.filter_congr (fun s hs => ?_)
    cases hok : loadOk cfg store s with
    | false => simp [hok]
    | true =>
      have h2 : s ∈ w0.map Prod.fst := (hw0mem s).2 ⟨hs, hok⟩
      simp [hok, h2]
  have hw2nil : (rbPass cfg store tick2 st1).working = [] := by
    rw [hw, List.filter_eq_nil_iff]
    intro e he
    have h2 : e.1 ∈ w0.map Prod.fst := List.mem_map_of_mem Prod.fst he
    have h3 := (hw0mem e.1).1 h2
    simp [h3.1, h3.2]
  have hErr : (rbPass cfg store tick2 st1).errors =
      ((list_recipes store).filter (fun s => !(loadOk cfg store s))).length := by
    have hc := (rbFold_counts cfg store tick2 st1.tagNames (list_recipes store)
      (rbAcc0 st1)).1
    simpa [rbPass, rbAcc0] using hc
  have hpend2 : (rbPass cfg store tick2 st1).pending.map rowKey =
      st1.recipes.map rowKey := by
    rw [hpk, hInsNil]
    simp
  have hca2 : commitAccepts (orphanErase (rbPass cfg store tick2 st1).working
      (rbPass cfg store tick2 st1).pending)
      (rbPass cfg store tick2 st1).table = true := by
    rw [hw2nil, htab2]
    have h4 : orphanErase [] (rbPass cfg store tick2 st1).pending =
        (rbPass cfg store tick2 st1).pending := rfl
    rw [h4, commitAccepts_congr_rowKey _ st1.recipes st1.tagNames hpend2]
    exact hca1
  have hres := rebuild_ok_intro cfg store tick2 st1 hca2
  refine ⟨_, _, hres, ?_, ?_, ?_, ?_, ?_⟩
  · exact hidx0
  · show (rbPass cfg store tick2 st1).working.length = 0
    rw [hw2nil]
    rfl
  · exact hupd2
  · exact hErr
  · rfl

/-- C1 witness and counterexample fixture: a store holding one loadable
document. -/
def c1store : DocStore :=
  [("a", { meta := { title := some "T" }, content := "x", size := 1 })]

/-- C1 witness: starting from the empty index, a first rebuild of the
one-document store succeeds, and the second run reports zero inserts,
zero orphans, one update (the loadable document) and zero errors. -/
theorem rebuild_second_run_witness :
    ∃ st2 stats2, rebuild_index ⟨"/r", 100⟩ c1store 5 true
        (rebuild_index ⟨"/r", 100⟩ c1store 0 true ⟨[], []⟩).1 =
        (st2, .ok stats2) ∧
      stats2.indexed = 0 ∧
      stats2.orphaned = 0 ∧
      stats2.updated = ((list_recipes c1store).filter
        (fun s => loadOk ⟨"/r", 100⟩ c1store s)).length ∧
      stats2.errors = ((list_recipes c1store).filter
        (fun s => !(loadOk ⟨"/r", 100⟩ c1store s))).length ∧
      stats2.total_files = (list_recipes c1store).length :=
  rebuild_second_run ⟨"/r", 100⟩ c1store 0 5 ⟨[], []⟩ _ ⟨1, 1, 0, 0, 0⟩
    (by decide) (by decide) (by decide) (by decide) (by decide)

/-- C1 counterexample: on the unchanged one-document store, the second
rebuild returns indexed = 0 and orphaned = 0 but updated = 1, not
updated = 0 -- the loop marks every document that matches an index row
as updated, so the second-run statistics are not all zero. -/
theorem rebuild_second_run_counterexample :
    (rebuild_index ⟨"/r", 100⟩ c1store 5 true
      (rebuild_index ⟨"/r", 100⟩ c1store 0 true ⟨[], []⟩).1).2 =
      .ok ⟨1, 0, 1, 0, 0⟩ := by
  decide

end RecipeHolder
